import Mathlib

/-!
Shallow embedding of the Dragonfly core storage engine pieces referenced by the
specification: the hash family (`src/server/hset_family.cc`), the sorted-set family
(`src/server/zset_family.cc`) and the tiered storage engine
(`src/server/tiered_storage.cc`), together with proofs of the spec claims.

Machine integers are modelled as `Nat`/`Int`; C++ `double` scores are modelled by the
executable type `EDouble` (signed infinities, NaN and exact finite values); strings are
Lean `String`s, except sorted-set members which are `List Char` so that the
byte-comparison order used by the skip list and listpack is the decidable
lexicographic order on lists.
-/

namespace Dfly

/-- Configuration constants used by the hash and sorted-set families
(`max_map_field_len`, `max_listpack_map_bytes`, `zset_max_listpack_entries`;
spec section 6, shard-immutable after init). -/
structure HConfig where
  maxMapFieldLen : Nat
  maxListpackMapBytes : Nat
  zsetMaxListpackEntries : Nat
deriving DecidableEq, Repr

/-! ### Listpack-encoded hash (redis listpack adapter as used by hset_family.cc)

A listpack hash is the flat sequence of `(field, value)` pairs in insertion order
(`lpAppend` appends at the tail, `lpReplace` replaces in place). -/

abbrev Listpack := List (String × String)

/-- Modelled from the spec: `lpBytes` (redis listpack library, not under src/) returns
the total byte size of the packed blob: a fixed header plus, per entry, the payload
bytes and a small constant overhead for the forward and backward length prefixes
(spec section 4.2). The exact constants do not matter for any claim; only that the
size grows with content. -/
def lpBytes (lp : Listpack) : Nat :=
  11 + lp.foldl (fun acc p => acc + p.1.length + p.2.length + 4) 0

/-- Embeds `IsGoodForListpack` (hset_family.cc:38-47): every argument must be at most
`max_map_field_len` bytes and the current listpack size plus the total size of the new
arguments must stay below `max_listpack_map_bytes`. `args` is the flat argument list
(fields and values interleaved), exactly as the C++ `CmdArgList`. -/
def IsGoodForListpack (cfg : HConfig) (args : List String) (lp : Listpack) : Bool :=
  if args.any (fun s => s.length > cfg.maxMapFieldLen) then false
  else lpBytes lp + (args.map String.length).sum < cfg.maxListpackMapBytes

/-- Embeds `LpDelete` (hset_family.cc:53-64): delete the first `(field, value)` pair
whose field matches; returns the new listpack and whether the field existed. -/
def LpDelete : Listpack → String → Listpack × Bool
  | [], _ => ([], false)
  | p :: rest, f =>
      if p.1 = f then (rest, true)
      else
        let r := LpDelete rest f
        (p :: r.1, r.2)

/-- Replaces in place the value of the first pair with the given field
(the `lpReplace` path of `LpInsert`). -/
def lpReplaceVal : Listpack → String → String → Listpack
  | [], _, _ => []
  | p :: rest, f, v => if p.1 = f then (f, v) :: rest else p :: lpReplaceVal rest f v

/-- Embeds `LpInsert` (hset_family.cc:70-107): if the field exists, either skip
(`skip_exists`) or replace the value in place; otherwise append the pair at the tail.
Returns the new listpack and whether a new pair was appended. -/
def LpInsert (lp : Listpack) (field val : String) (skipExists : Bool) : Listpack × Bool :=
  if lp.any (fun p => p.1 = field) then
    if skipExists then (lp, false) else (lpReplaceVal lp field val, false)
  else (lp ++ [(field, val)], true)

/-- Embeds `LpFind` (container_utils, used throughout hset_family.cc): the value of the
first pair whose field matches. -/
def LpFind (lp : Listpack) (field : String) : Option String :=
  (lp.find? (fun p => p.1 = field)).map Prod.snd

/-! ### StringMap (core/string_map, the hashed `kEncodingStrMap2` form)

Modelled from the spec (core/string_map.cc is not under src/): a hashed set of
`(field, value, expiry?)` triples with insertion-time-ordered iteration
(spec section 3 and 4.3). Expiry is an absolute timestamp; an entry is live when the
current time is before it. Expired entries are treated as absent by lookups. -/

structure SMapEntry where
  field : String
  val : String
  expireAt : Option Nat
deriving DecidableEq, Repr

abbrev StringMap := List SMapEntry

/-- Modelled from the spec: an entry is live unless its expiry time has passed. -/
def smLive (now : Nat) (e : SMapEntry) : Bool :=
  match e.expireAt with
  | none => true
  | some t => now < t

/-- Replaces in place the entry with the same field. -/
def smReplace : StringMap → SMapEntry → StringMap
  | [], _ => []
  | e :: rest, n => if e.field = n.field then n :: rest else e :: smReplace rest n

/-- Modelled from the spec: `StringMap::AddOrUpdate` overwrites the value (and expiry)
of an existing field in place, otherwise appends a new entry; returns whether a new
entry was added (spec section 4.3). -/
def smAddOrUpdate (sm : StringMap) (field val : String) (expireAt : Option Nat) :
    StringMap × Bool :=
  if sm.any (fun e => e.field = field) then (smReplace sm ⟨field, val, expireAt⟩, false)
  else (sm ++ [⟨field, val, expireAt⟩], true)

/-- Modelled from the spec: `StringMap::AddOrSkip` leaves an existing field untouched. -/
def smAddOrSkip (sm : StringMap) (field val : String) (expireAt : Option Nat) :
    StringMap × Bool :=
  if sm.any (fun e => e.field = field) then (sm, false)
  else (sm ++ [⟨field, val, expireAt⟩], true)

/-- Modelled from the spec: `StringMap::Erase` removes a live entry with the field;
expired entries are treated as absent. Returns whether an entry was erased. -/
def smErase (now : Nat) : StringMap → String → StringMap × Bool
  | [], _ => ([], false)
  | e :: rest, f =>
      if e.field = f && smLive now e then (rest, true)
      else
        let r := smErase now rest f
        (e :: r.1, r.2)

/-- Modelled from the spec: `StringMap::Find`, returning the value of the live entry
with the given field. -/
def smFind (now : Nat) (sm : StringMap) (field : String) : Option String :=
  (sm.find? (fun e => e.field = field && smLive now e)).map SMapEntry.val

/-- Modelled from the spec: `UpperBoundSize` may overcount by expired-but-not-yet-GCed
entries, i.e. it is the raw entry count. -/
def smUpperBoundSize (sm : StringMap) : Nat := sm.length

/-! ### Hash values, database and stats -/

/-- A hash object: either the packed listpack encoding (`kEncodingListPack`) or the
hashed StringMap encoding (`kEncodingStrMap2`). -/
inductive HashVal where
  | listpack : Listpack → HashVal
  | strMap : StringMap → HashVal
deriving DecidableEq, Repr

/-- The per-table stats maintained by the hash family
(`DbTableStats::listpack_blob_cnt` and `listpack_bytes`). -/
structure DbTableStats where
  listpackBlobCnt : Int
  listpackBytes : Int
deriving DecidableEq, Repr

/-- The slice of the prime table holding hash objects, as an association list in
insertion order. -/
abbrev HDb := List (String × HashVal)

def dbFind {β : Type} (db : List (String × β)) (k : String) : Option β :=
  (db.find? (fun p => p.1 = k)).map Prod.snd

/-- Replaces the value stored at a key, or appends the binding if the key is new. -/
def dbSet {β : Type} : List (String × β) → String → β → List (String × β)
  | [], k, v => [(k, v)]
  | p :: rest, k, v => if p.1 = k then (k, v) :: rest else p :: dbSet rest k v

/-- Removes the binding of a key (the `DbSlice::Del` path). -/
def dbDel {β : Type} (db : List (String × β)) (k : String) : List (String × β) :=
  db.filter (fun p => p.1 ≠ k)

/-- Shard state visible to the hash family: the keyspace slice and its stats. -/
structure HState where
  db : HDb
  stats : DbTableStats
deriving DecidableEq, Repr

/-- Embeds `HSetFamily::ConvertToStrMap` (hset_family.cc:1203-1242): one traversal of
the listpack, inserting each `(field, value)` pair into a fresh StringMap with
`AddOrUpdate` (without TTL). Duplicate fields would make `AddOrUpdate` overwrite and
are logged as a hard internal error in the source. -/
def ConvertToStrMap (lp : Listpack) : StringMap :=
  lp.foldl (fun sm p => (smAddOrUpdate sm p.1 p.2 none).1) []

/-- Parameters of `OpSet` (hset_family.cc:610-613): `skip_if_exists` for HSETNX and the
per-field TTL for HSETEX (`none` models the C++ sentinel `UINT32_MAX`). -/
structure OpSetParams where
  skipIfExists : Bool := false
  ttl : Option Nat := none
deriving DecidableEq, Repr

/-- Flattens `(field, value)` pairs into the interleaved `CmdArgList` form that
`OpSet` receives and passes to `IsGoodForListpack`. -/
def flatArgs (values : List (String × String)) : List String :=
  values.foldr (fun p acc => p.1 :: p.2 :: acc) []

/-- The listpack insertion loop of `OpSet` (hset_family.cc:662-674): insert every
pair, counting appends. -/
def lpInsertAll (lp : Listpack) (values : List (String × String)) (skip : Bool) :
    Listpack × Nat :=
  values.foldl
    (fun (acc : Listpack × Nat) pr =>
      let i := LpInsert acc.1 pr.1 pr.2 skip
      (i.1, acc.2 + (if i.2 then 1 else 0)))
    (lp, 0)

/-- The StringMap insertion loop of `OpSet` (hset_family.cc:675-691): add every pair
with `AddOrSkip` or `AddOrUpdate`, counting new fields. -/
def smInsertAll (sm : StringMap) (values : List (String × String)) (skip : Bool)
    (expireAt : Option Nat) : StringMap × Nat :=
  values.foldl
    (fun (acc : StringMap × Nat) pr =>
      let i :=
        if skip then smAddOrSkip acc.1 pr.1 pr.2 expireAt
        else smAddOrUpdate acc.1 pr.1 pr.2 expireAt
      (i.1, acc.2 + (if i.2 then 1 else 0)))
    (sm, 0)

/-- Embeds `OpSet` (hset_family.cc:615-696). A new key starts as an empty listpack
(or directly as a StringMap when a TTL is requested); an existing listpack is
converted to a StringMap when a TTL is requested or `IsGoodForListpack` fails;
then all pairs are inserted into whichever encoding resulted. Returns the new state
and the number of newly created fields. Memory-reservation calls (`zrealloc`,
`Reserve`) have no observable effect and are not modelled. -/
def OpSet (cfg : HConfig) (now : Nat) (st : HState) (key : String)
    (values : List (String × String)) (sp : OpSetParams) : HState × Nat :=
  let expireAt : Option Nat := sp.ttl.map (now + ·)
  let init : HashVal × DbTableStats :=
    match dbFind st.db key with
    | some pv => (pv, st.stats)
    | none =>
        match sp.ttl with
        | none =>
            (HashVal.listpack [],
             { st.stats with
                listpackBlobCnt := st.stats.listpackBlobCnt + 1,
                listpackBytes := st.stats.listpackBytes + lpBytes [] })
        | some _ => (HashVal.strMap [], st.stats)
  let checked : HashVal × DbTableStats :=
    match init with
    | (HashVal.listpack lp, stats0) =>
        let stats1 := { stats0 with listpackBytes := stats0.listpackBytes - lpBytes lp }
        if sp.ttl.isSome || !IsGoodForListpack cfg (flatArgs values) lp then
          (HashVal.strMap (ConvertToStrMap lp),
           { stats1 with listpackBlobCnt := stats1.listpackBlobCnt - 1 })
        else (HashVal.listpack lp, stats1)
    | (HashVal.strMap sm, stats0) => (HashVal.strMap sm, stats0)
  match checked with
  | (HashVal.listpack lp, stats1) =>
      let r := lpInsertAll lp values sp.skipIfExists
      ({ db := dbSet st.db key (HashVal.listpack r.1),
         stats := { stats1 with listpackBytes := stats1.listpackBytes + lpBytes r.1 } },
       r.2)
  | (HashVal.strMap sm, stats1) =>
      let r := smInsertAll sm values sp.skipIfExists expireAt
      ({ db := dbSet st.db key (HashVal.strMap r.1), stats := stats1 }, r.2)

/-- Embeds `HMapLength` (hset_family.cc:117-126): entry count of either encoding. -/
def HMapLength : HashVal → Nat
  | HashVal.listpack lp => lp.length
  | HashVal.strMap sm => smUpperBoundSize sm

/-- Embeds `OpLen` / `HSetFamily::HLen` (hset_family.cc:468-479, 766-777): a missing
key replies 0. -/
def HLen (st : HState) (key : String) : Nat :=
  match dbFind st.db key with
  | none => 0
  | some pv => HMapLength pv

/-- Embeds `OpGet` / `HSetFamily::HGet` (hset_family.cc:505-531, 829-848): the value of
the field in either encoding, or `none` (a null reply) when absent. -/
def HGet (now : Nat) (st : HState) (key field : String) : Option String :=
  match dbFind st.db key with
  | none => none
  | some (HashVal.listpack lp) => LpFind lp field
  | some (HashVal.strMap sm) => smFind now sm field

/-- Embeds the listpack loop of `OpDel` (hset_family.cc:360-374): delete each requested
field, counting successes; when a deletion empties the listpack, stop and schedule key
removal. Returns (new listpack, deleted count, key_remove). -/
def lpDelLoop : Listpack → List String → Listpack × Nat × Bool
  | lp, [] => (lp, 0, false)
  | lp, f :: fs =>
      let r := LpDelete lp f
      if r.2 then
        if r.1.length = 0 then (r.1, 1, true)
        else
          let rest := lpDelLoop r.1 fs
          (rest.1, rest.2.1 + 1, rest.2.2)
      else lpDelLoop lp fs

/-- Embeds the StringMap loop of `OpDel` (hset_family.cc:375-389): erase each requested
field; when `UpperBoundSize` drops to zero, stop and schedule key removal. -/
def smDelLoop (now : Nat) : StringMap → List String → StringMap × Nat × Bool
  | sm, [] => (sm, 0, false)
  | sm, f :: fs =>
      let r := smErase now sm f
      if r.2 then
        if smUpperBoundSize r.1 = 0 then (r.1, 1, true)
        else
          let rest := smDelLoop now r.1 fs
          (rest.1, rest.2.1 + 1, rest.2.2)
      else smDelLoop now sm fs

/-- Embeds `OpDel` (hset_family.cc:343-406): `none` models `KEY_NOTFOUND`. On the
listpack path the stats temporarily subtract the old byte size and either add the new
size back or drop the blob count when the key is removed. -/
def OpDel (now : Nat) (st : HState) (key : String) (fields : List String) :
    Option (HState × Nat) :=
  match dbFind st.db key with
  | none => none
  | some (HashVal.listpack lp) =>
      let stats1 := { st.stats with listpackBytes := st.stats.listpackBytes - lpBytes lp }
      let r := lpDelLoop lp fields
      if r.2.2 then
        some ({ db := dbDel st.db key,
                stats := { stats1 with listpackBlobCnt := stats1.listpackBlobCnt - 1 } },
              r.2.1)
      else
        some ({ db := dbSet st.db key (HashVal.listpack r.1),
                stats := { stats1 with listpackBytes := stats1.listpackBytes + lpBytes r.1 } },
              r.2.1)
  | some (HashVal.strMap sm) =>
      let r := smDelLoop now sm fields
      if r.2.2 then some ({ db := dbDel st.db key, stats := st.stats }, r.2.1)
      else some ({ db := dbSet st.db key (HashVal.strMap r.1), stats := st.stats }, r.2.1)

/-- Embeds `HSetFamily::HDel` (hset_family.cc:750-764): a `KEY_NOTFOUND` status still
replies with the count 0 and leaves the state unchanged. -/
def HDel (now : Nat) (st : HState) (key : String) (fields : List String) : HState × Nat :=
  match OpDel now st key fields with
  | none => (st, 0)
  | some r => r

/-! ### HINCRBY (integer increment) -/

def LLONG_MAX : Int := 9223372036854775807

def LLONG_MIN : Int := -9223372036854775808

/-- Modelled from the spec: redis `string2ll` (redis/util, not under src/) parses a
strict signed 64-bit decimal integer: optional minus sign, nonempty digit run, no
leading zeros (except "0" itself), and the value must fit in the signed 64-bit
range. -/
def string2ll (s : String) : Option Int :=
  let core : List Char → Option Int := fun cs =>
    match cs with
    | [] => none
    | ['0'] => some 0
    | '0' :: _ :: _ => none
    | _ =>
        if cs.all Char.isDigit then
          some (Int.ofNat (cs.foldl (fun acc c => acc * 10 + (c.toNat - 48)) 0))
        else none
  let raw : Option Int :=
    match s.data with
    | '-' :: rest => (core rest).map (fun n => -n)
    | cs => core cs
  match raw with
  | some n => if LLONG_MIN ≤ n ∧ n ≤ LLONG_MAX then some n else none
  | none => none

/-- Embeds the integer branch of `IncrementValue` (hset_family.cc:148-165): an absent
previous value counts as 0; the overflow guard compares against the signed 64-bit
bounds exactly as written in the source; `none` models `OUT_OF_RANGE`. The long-double
branch used by HINCRBYFLOAT is floating point and outside this development. -/
def IncrementValueInt (prev : Option Int) (incr : Int) : Option Int :=
  let oldVal := prev.getD 0
  if (incr < 0 ∧ oldVal < 0 ∧ incr < LLONG_MIN - oldVal) ∨
     (incr > 0 ∧ oldVal > 0 ∧ incr > LLONG_MAX - oldVal) then none
  else some (oldVal + incr)

/-- Outcome of `OpIncrBy`: the HINCRBY reply value with the resulting state, or one of
the error statuses (which leave the state as the source leaves it). -/
inductive IncrRes where
  | ok (newVal : Int) (st : HState)
  | invalidValue (st : HState)
  | outOfRange (st : HState)
deriving DecidableEq, Repr

/-- Shared continuation of `OpIncrBy` on the StringMap encoding
(hset_family.cc:233-266): look up the field, parse with `string2ll`, apply the
overflow guard, store back the decimal sum with `AddOrUpdate`. `baseDb`/`baseStats`
are the database and stats after the (possible) listpack promotion; an error leaves
them as they are. -/
def incrOnStrMap (baseDb : HDb) (baseStats : DbTableStats) (now : Nat)
    (key field : String) (incr : Int) (sm : StringMap) : IncrRes :=
  let base : HState := { db := baseDb, stats := baseStats }
  let store : Int → IncrRes := fun nv =>
    IncrRes.ok nv
      { db := dbSet baseDb key (HashVal.strMap (smAddOrUpdate sm field (toString nv) none).1),
        stats := baseStats }
  match smFind now sm field with
  | some s =>
      match string2ll s with
      | none => IncrRes.invalidValue base
      | some oldVal =>
          match IncrementValueInt (some oldVal) incr with
          | none => IncrRes.outOfRange base
          | some nv => store nv
  | none =>
      match IncrementValueInt none incr with
      | none => IncrRes.outOfRange base
      | some nv => store nv

/-- Embeds the integer path of `OpIncrBy` (hset_family.cc:168-271). A missing key is
created as an empty listpack (`listpack_blob_cnt++`); an existing listpack whose byte
size reached `max_listpack_map_bytes` is first converted to a StringMap (the stats
subtract the old bytes and drop the blob count); the field's previous value is parsed
with `string2ll` and `IncrementValue` applies the overflow guard; on success the
decimal representation of the sum is stored back, and on an error in the (unconverted)
listpack branch the subtracted bytes are added back. -/
def OpIncrBy (cfg : HConfig) (now : Nat) (st : HState) (key field : String)
    (incr : Int) : IncrRes :=
  match dbFind st.db key with
  | none =>
      let stats0 := { st.stats with listpackBlobCnt := st.stats.listpackBlobCnt + 1 }
      match IncrementValueInt none incr with
      | none =>
          IncrRes.outOfRange { db := dbSet st.db key (HashVal.listpack []), stats := stats0 }
      | some nv =>
          let lp' := (LpInsert [] field (toString nv) false).1
          IncrRes.ok nv
            { db := dbSet st.db key (HashVal.listpack lp'),
              stats := { stats0 with listpackBytes := stats0.listpackBytes + lpBytes lp' } }
  | some (HashVal.listpack lp) =>
      let lpb := lpBytes lp
      let stats1 := { st.stats with listpackBytes := st.stats.listpackBytes - lpb }
      if lpb ≥ cfg.maxListpackMapBytes then
        let sm := ConvertToStrMap lp
        let stats2 := { stats1 with listpackBlobCnt := stats1.listpackBlobCnt - 1 }
        incrOnStrMap (dbSet st.db key (HashVal.strMap sm)) stats2 now key field incr sm
      else
        let restored : HState :=
          { db := st.db, stats := { stats1 with listpackBytes := stats1.listpackBytes + lpb } }
        let store : Int → IncrRes := fun nv =>
          let lp' := (LpInsert lp field (toString nv) false).1
          IncrRes.ok nv
            { db := dbSet st.db key (HashVal.listpack lp'),
              stats := { stats1 with listpackBytes := stats1.listpackBytes + lpBytes lp' } }
        match LpFind lp field with
        | some s =>
            match string2ll s with
            | none => IncrRes.invalidValue restored
            | some oldVal =>
                match IncrementValueInt (some oldVal) incr with
                | none => IncrRes.outOfRange restored
                | some nv => store nv
        | none =>
            match IncrementValueInt none incr with
            | none => IncrRes.outOfRange restored
            | some nv => store nv
  | some (HashVal.strMap sm) => incrOnStrMap st.db st.stats now key field incr sm

/-! ### HRANDFIELD (single-argument form, needed for the empty-map cleanup claim) -/

/-- Modelled from the spec: `StringMap::RandomPair` samples from live (unexpired)
entries, and expired entries are GC'd lazily on probe (spec section 4.3); the
sampling during the call probes the table, so the surviving map holds exactly the
live entries. The choice of sampled pair is modelled as the first live entry. -/
def smRandomPairGC (now : Nat) (sm : StringMap) :
    Option (String × String) × StringMap :=
  let live := sm.filter (smLive now)
  ((live.head?).map (fun e => (e.field, e.val)), live)

/-- Embeds the single-argument shard callback of `HSetFamily::HRandField`
(hset_family.cc:1057-1136): on the StringMap encoding a random live pair is sampled
and, if the map is then empty, the key is deleted and `KEY_NOTFOUND` (modelled as
`none`) is returned; on the listpack encoding a random pair is sampled (modelled as
the first pair; listpacks have no TTL slots so they are never empty here). -/
def HRandFieldSingle (now : Nat) (st : HState) (key : String) :
    Option String × HState :=
  match dbFind st.db key with
  | none => (none, st)
  | some (HashVal.strMap sm) =>
      let r := smRandomPairGC now sm
      if r.2.isEmpty then (none, { st with db := dbDel st.db key })
      else ((r.1).map Prod.fst, { st with db := dbSet st.db key (HashVal.strMap r.2) })
  | some (HashVal.listpack lp) => ((lp.head?).map Prod.fst, st)

/-! ## Sorted sets (zset_family.cc)

Scores are C++ doubles in the source; they are modelled by the executable type
`EDouble` below with exact finite values (`Int`), signed infinities and NaN, which is
all the claims exercise. Members are byte strings modelled as `List Char`, compared by
the lexicographic order (redis `sdscmp`). -/

/-- Executable model of a C++ double score: NaN, infinities, or an exact finite
value. -/
inductive EDouble where
  | nan : EDouble
  | negInf : EDouble
  | posInf : EDouble
  | fin : Int → EDouble
deriving DecidableEq, Repr

/-- IEEE addition on the modelled doubles: any NaN operand or `inf + (-inf)`
produces NaN. -/
def EDouble.add : EDouble → EDouble → EDouble
  | EDouble.nan, _ => EDouble.nan
  | _, EDouble.nan => EDouble.nan
  | EDouble.posInf, EDouble.negInf => EDouble.nan
  | EDouble.negInf, EDouble.posInf => EDouble.nan
  | EDouble.posInf, _ => EDouble.posInf
  | _, EDouble.posInf => EDouble.posInf
  | EDouble.negInf, _ => EDouble.negInf
  | _, EDouble.negInf => EDouble.negInf
  | EDouble.fin a, EDouble.fin b => EDouble.fin (a + b)

def EDouble.isNan : EDouble → Bool
  | EDouble.nan => true
  | _ => false

/-- Sort key for the total order used on scores: `-inf < finite < +inf`, and NaN
ordered last (NaN is never stored in a sorted set, the insertion guard rejects it). -/
def EDouble.key : EDouble → Nat × Int
  | EDouble.negInf => (0, 0)
  | EDouble.fin v => (1, v)
  | EDouble.posInf => (2, 0)
  | EDouble.nan => (3, 0)

/-- Strict order on scores (the IEEE `<` on the non-NaN values). -/
def edLt (a b : EDouble) : Bool :=
  a.key.1 < b.key.1 || (a.key.1 = b.key.1 && a.key.2 < b.key.2)

def edLe (a b : EDouble) : Bool := edLt a b || a = b

/-- Byte strings used as sorted-set members. -/
abbrev MemberStr := List Char

/-- The `(score, member)` order of the skip list and the zset listpack: by score,
ties broken lexicographically by member (spec section 4.4). -/
def entryLt (a b : EDouble × MemberStr) : Bool :=
  edLt a.1 b.1 || (a.1 = b.1 && decide (a.2 < b.2))

/-- Encoding of a sorted-set object: packed listpack or skip list. -/
inductive ZEnc where
  | listpack : ZEnc
  | skiplist : ZEnc
deriving DecidableEq, Repr

/-- A sorted-set object: its encoding and its entries kept in `(score, member)`
order (both the zset listpack and the skip list store entries in this order). -/
structure ZsetVal where
  enc : ZEnc
  entries : List (EDouble × MemberStr)
deriving DecidableEq, Repr

/-- Inserts an entry at its `(score, member)` position. -/
def zinsertSorted (e : EDouble × MemberStr) : List (EDouble × MemberStr) →
    List (EDouble × MemberStr)
  | [] => [e]
  | x :: xs => if entryLt e x then e :: x :: xs else x :: zinsertSorted e xs

/-- Looks up the score of a member (`zzlFind` / the member hash of the skip list). -/
def zfindScore (entries : List (EDouble × MemberStr)) (m : MemberStr) : Option EDouble :=
  (entries.find? (fun p => p.2 = m)).map Prod.fst

/-- Removes the entry of a member. -/
def zremoveMember (entries : List (EDouble × MemberStr)) (m : MemberStr) :
    List (EDouble × MemberStr) :=
  entries.filter (fun p => p.2 ≠ m)

/-- Output flags of one `ZsetAdd` call (the `ZADD_OUT_*` mask). -/
structure ZOut where
  added : Bool := false
  updated : Bool := false
  nop : Bool := false
deriving DecidableEq, Repr

/-- Input flags of ZADD (the `ZADD_IN_*` mask plus CH/override, zset_family.cc:171-175). -/
structure ZParams where
  nx : Bool := false
  xx : Bool := false
  gt : Bool := false
  lt : Bool := false
  incr : Bool := false
  ch : Bool := false
deriving DecidableEq, Repr

/-- Modelled from the spec: `RobjWrapper::ZsetAdd` (core/compact_object.cc wrapping
redis `zsetAdd`, not under src/) with flags `NX`, `XX`, `GT`, `LT`, `INCR`
(spec section 4.4). `none` models `retval == 0`, the NaN rejection: a NaN input
score, or an `INCR` whose resulting score is NaN, leaves the set untouched.
Otherwise returns the updated object, the output flags and the new score. An
existing member is skipped under `NX` (or when `GT`/`LT` block the update) with the
`NOP` output flag; a missing member is skipped under `XX`. The object promotes to the
skip-list encoding when the member count exceeds `zset_max_listpack_entries` or the
member is longer than `max_map_field_len` (spec promotion policy, section 4.2). -/
def ZsetAdd (cfg : HConfig) (z : ZsetVal) (score : EDouble) (m : MemberStr)
    (p : ZParams) : Option (ZsetVal × ZOut × EDouble) :=
  if score.isNan then none
  else
    let promote : ZsetVal → ZsetVal := fun z' =>
      if z'.entries.length > cfg.zsetMaxListpackEntries ∨ m.length > cfg.maxMapFieldLen then
        { z' with enc := ZEnc.skiplist }
      else z'
    match zfindScore z.entries m with
    | some cur =>
        if p.nx then some (z, { nop := true }, cur)
        else
          let newScore := if p.incr then cur.add score else score
          if p.incr ∧ newScore.isNan then none
          else if (p.gt ∧ ¬ edLt cur newScore) ∨ (p.lt ∧ ¬ edLt newScore cur) then
            some (z, { nop := true }, cur)
          else if newScore ≠ cur then
            some ({ z with entries := zinsertSorted (newScore, m) (zremoveMember z.entries m) },
                  { updated := true }, newScore)
          else some (z, {}, newScore)
    | none =>
        if p.xx then some (z, { nop := true }, EDouble.fin 0)
        else
          some (promote { z with entries := zinsertSorted (score, m) z.entries },
                { added := true }, score)

/-- The sorted-set keyspace slice. -/
abbrev ZDb := List (String × ZsetVal)

/-- Result of `OpAdd` as consumed by `ZAddGeneric` (zset_family.cc:952-957,
1775-1798). -/
inductive ZAddRes where
  | ok (newScore : EDouble) (numUpdated : Nat) (isNan : Bool)
  | keyNotfound
  | skipped
deriving DecidableEq, Repr

/-- Embeds `FindZEntry` (zset_family.cc:189-224): under `XX` a missing key is
`KEY_NOTFOUND`; otherwise a missing key is created, as a skip list when the probe
member length exceeds `max_map_field_len` and as an empty listpack otherwise. -/
def FindZEntry (cfg : HConfig) (p : ZParams) (db : ZDb) (key : String)
    (memberLen : Nat) : Option ZsetVal :=
  match dbFind db key with
  | some z => some z
  | none =>
      if p.xx then none
      else if memberLen > cfg.maxMapFieldLen then
        some { enc := ZEnc.skiplist, entries := [] }
      else some { enc := ZEnc.listpack, entries := [] }

/-- Embeds the member loop of `OpAdd` (zset_family.cc:1016-1039): each member goes
through `ZsetAdd`; under `INCR` a NaN result stops the loop with `is_nan`, and a
`NOP` output sets the `SKIPPED` status. -/
def zaddLoop (cfg : HConfig) (p : ZParams) :
    ZsetVal → List (EDouble × MemberStr) →
    ZsetVal × Nat × Nat × EDouble × Bool × Bool
  | z, [] => (z, 0, 0, EDouble.fin 0, false, false)
  | z, (sc, m) :: rest =>
      match ZsetAdd cfg z sc m p with
      | none => (z, 0, 0, EDouble.fin 0, true, false)
      | some (z', out, newScore) =>
          let skipped := p.incr ∧ out.nop
          match rest with
          | [] =>
              (z', (if out.added then 1 else 0), (if out.updated then 1 else 0),
               newScore, false, skipped)
          | _ =>
              let r := zaddLoop cfg p z' rest
              (r.1, r.2.1 + (if out.added then 1 else 0),
               r.2.2.1 + (if out.updated then 1 else 0),
               r.2.2.2.1, r.2.2.2.2.1, r.2.2.2.2.2 ∨ skipped)

/-- Embeds `OpAdd` (zset_family.cc:967-1056) for a non-empty member span: the probe
field length passed to `FindZEntry` is forced large when the member count already
exceeds `zset_max_listpack_entries`; then the members are added one by one. The
reply is the new score under `INCR`, else the number of added (plus updated, under
`CH`) members. -/
def OpAdd (cfg : HConfig) (db : ZDb) (p : ZParams) (key : String)
    (members : List (EDouble × MemberStr)) : ZDb × ZAddRes :=
  let fieldLen :=
    if members.length > cfg.zsetMaxListpackEntries then cfg.maxMapFieldLen + 1
    else (members.head?.map (fun q => q.2.length)).getD 0
  match FindZEntry cfg p db key fieldLen with
  | none => (db, ZAddRes.keyNotfound)
  | some z =>
      let r := zaddLoop cfg p z members
      let db' := dbSet db key r.1
      let added := r.2.1
      let updated := r.2.2.1
      let newScore := r.2.2.2.1
      let isNan := r.2.2.2.2.1
      let skipped := r.2.2.2.2.2
      if skipped then (db', ZAddRes.skipped)
      else if isNan then (db', ZAddRes.ok (EDouble.fin 0) 0 true)
      else if p.incr then (db', ZAddRes.ok newScore 0 false)
      else (db', ZAddRes.ok (EDouble.fin 0) (if p.ch then added + updated else added) false)

/-! ### The ZADD command (zset_family.cc:1824-1921) -/

/-- Parses a nonempty digit run. -/
def digitsToNat (cs : List Char) : Option Nat :=
  match cs with
  | [] => none
  | _ =>
      if cs.all Char.isDigit then
        some (cs.foldl (fun acc c => acc * 10 + (c.toNat - 48)) 0)
      else none

/-- ASCII lower-casing of one character (case-insensitive literal matching). -/
def lowerChar (c : Char) : Char :=
  if 'A' ≤ c ∧ c ≤ 'Z' then Char.ofNat (c.toNat + 32) else c

/-- Modelled from the spec: `ParseDouble` (server/common.cc, not under src/) parses a
score; per the call-site comment in `ZSetFamily::ZAdd` ("Treats Nan as invalid
double") a NaN literal fails the parse. Infinity literals and plain decimal integers
are the forms the claims exercise; fractional literals are out of scope for this
development's exact-value model. -/
def ParseDouble (s : String) : Option EDouble :=
  let low : List Char := s.data.map lowerChar
  if low = "nan".data ∨ low = "-nan".data ∨ low = "+nan".data then none
  else if low = "inf".data ∨ low = "+inf".data ∨ low = "infinity".data ∨
      low = "+infinity".data then
    some EDouble.posInf
  else if low = "-inf".data ∨ low = "-infinity".data then some EDouble.negInf
  else
    match s.data with
    | '-' :: rest => (digitsToNat rest).map (fun n => EDouble.fin (-(Int.ofNat n)))
    | '+' :: rest => (digitsToNat rest).map (fun n => EDouble.fin (Int.ofNat n))
    | cs => (digitsToNat cs).map (fun n => EDouble.fin (Int.ofNat n))

/-- Embeds the flag-scanning loop of `ZSetFamily::ZAdd` (zset_family.cc:1829-1849):
consume recognized flag words from the front, never consuming the last argument
(the loop bound is `i < args.size() - 1`). Returns the flags and the remaining
arguments. -/
def parseZAddFlags : List String → ZParams → ZParams × List String
  | [], p => (p, [])
  | [a], p => (p, [a])
  | a :: rest, p =>
      if a = "XX" then parseZAddFlags rest { p with xx := true }
      else if a = "NX" then parseZAddFlags rest { p with nx := true }
      else if a = "GT" then parseZAddFlags rest { p with gt := true }
      else if a = "LT" then parseZAddFlags rest { p with lt := true }
      else if a = "CH" then parseZAddFlags rest { p with ch := true }
      else if a = "INCR" then parseZAddFlags rest { p with incr := true }
      else (p, a :: rest)

/-- Parses the `(score, member)` tail of ZADD; any unparsable score aborts with the
invalid-float error. -/
def parseScoreMembers : List String → Option (List (EDouble × MemberStr))
  | [] => some []
  | [_] => none
  | s :: m :: rest =>
      match ParseDouble s with
      | none => none
      | some sc => (parseScoreMembers rest).map (fun tl => (sc, m.data) :: tl)

/-- A RESP reply as far as the modelled commands need it. -/
inductive Reply where
  | err (msg : String)
  | long (n : Int)
  | dbl (d : EDouble)
  | null
  | arr (members : List MemberStr)
deriving DecidableEq, Repr

/-- Error strings of zset_family.cc (kScoreNaN and friends) and facade/error. -/
def kScoreNaN : String := "resulting score is not a number (NaN)"

def kInvalidFloatErr : String := "value is not a valid float"

def kSyntaxErr : String := "syntax error"

def kIncrPairErr : String := "INCR option supports a single increment-element pair"

def kNxXxErr : String := "XX and NX options at the same time are not compatible"

def kGtLtNxErr : String := "GT, LT, and/or NX options at the same time are not compatible"

/-- Embeds `ZAddGeneric` (zset_family.cc:1769-1798): maps the `OpAdd` outcome to a
reply. -/
def ZAddGeneric (cfg : HConfig) (db : ZDb) (p : ZParams) (key : String)
    (members : List (EDouble × MemberStr)) : ZDb × Reply :=
  let r := OpAdd cfg db p key members
  match r.2 with
  | ZAddRes.keyNotfound => (r.1, if p.incr then Reply.null else Reply.long 0)
  | ZAddRes.skipped => (r.1, Reply.null)
  | ZAddRes.ok newScore numUpdated isNan =>
      if isNan then (r.1, Reply.err kScoreNaN)
      else if p.incr then (r.1, Reply.dbl newScore)
      else (r.1, Reply.long (Int.ofNat numUpdated))

/-- Embeds `ZSetFamily::ZAdd` (zset_family.cc:1824-1921): scan the flags, check
parity, the single-pair restriction of `INCR`, and the `NX`/`XX`/`GT`/`LT`
compatibility rules; parse all scores (NaN literals fail here with the invalid-float
error); then run `OpAdd` via `ZAddGeneric`. The listpack pre-sorting of members
(zset_family.cc:1874-1917) only permutes the insertion order and is not modelled. -/
def ZAddCmd (cfg : HConfig) (db : ZDb) (key : String) (args : List String) :
    ZDb × Reply :=
  let fr := parseZAddFlags args {}
  let p := fr.1
  let rest := fr.2
  if rest.length % 2 ≠ 0 then (db, Reply.err kSyntaxErr)
  else if p.incr ∧ rest.length > 2 then (db, Reply.err kIncrPairErr)
  else if p.nx ∧ p.xx then (db, Reply.err kNxXxErr)
  else if (p.nx ∧ (p.gt ∨ p.lt)) ∨ (p.gt ∧ p.lt) then (db, Reply.err kGtLtNxErr)
  else
    match parseScoreMembers rest with
    | none => (db, Reply.err kInvalidFloatErr)
    | some members => ZAddGeneric cfg db p key members

/-- Score of a member of a stored sorted set (`GetZsetScore`,
zset_family.cc:154-169). -/
def ZScore (db : ZDb) (key : String) (m : MemberStr) : Option EDouble :=
  (dbFind db key).bind (fun z => zfindScore z.entries m)

/-! ### ZREM (zset_family.cc:1610-1631, 2366-2379) -/

/-- Embeds `ZsetDel` (zset_family.cc:136-151): delete the member from either
encoding, reporting whether it existed. -/
def ZsetDel (z : ZsetVal) (m : MemberStr) : ZsetVal × Bool :=
  match zfindScore z.entries m with
  | some _ => ({ z with entries := zremoveMember z.entries m }, true)
  | none => (z, false)

/-- Embeds `OpRem` (zset_family.cc:1610-1631): delete each member, then remove the
key from the database when the set became empty. `none` models `KEY_NOTFOUND`. -/
def OpRem (db : ZDb) (key : String) (members : List MemberStr) :
    Option (ZDb × Nat) :=
  match dbFind db key with
  | none => none
  | some z =>
      let r := members.foldl
        (fun (acc : ZsetVal × Nat) m =>
          let d := ZsetDel acc.1 m
          (d.1, acc.2 + (if d.2 then 1 else 0)))
        (z, 0)
      let zlen := r.1.entries.length
      if zlen = 0 then some (dbDel db key, r.2)
      else some (dbSet db key r.1, r.2)

/-! ### Lexicographic ranges (zset_family.cc:104-129, 689-710, 554-600) -/

/-- A lex bound as parsed by `ParseLexBound` (zset_family.cc:689-710):
`-`, `+`, `[s` (closed) or `(s` (open). -/
inductive LexBound where
  | minusInf : LexBound
  | plusInf : LexBound
  | closed : MemberStr → LexBound
  | opn : MemberStr → LexBound
deriving DecidableEq, Repr

/-- Embeds `ParseLexBound` (zset_family.cc:689-710). -/
def ParseLexBound (src : String) : Option LexBound :=
  if src = "" then none
  else if src = "+" then some LexBound.plusInf
  else if src = "-" then some LexBound.minusInf
  else
    match src.data with
    | '(' :: rest => some (LexBound.opn rest)
    | '[' :: rest => some (LexBound.closed rest)
    | _ => none

/-- The `zlexrangespec` produced by `GetLexRange`. -/
structure ZLexRange where
  min : LexBound
  max : LexBound
deriving DecidableEq, Repr

/-- Embeds `GetLexRange` (zset_family.cc:114-129): a reversed range swaps the two
endpoints before building the spec. -/
def GetLexRange (reverse : Bool) (li : LexBound × LexBound) : ZLexRange :=
  let i := if reverse then (li.2, li.1) else li
  { min := i.1, max := i.2 }

/-- Modelled from the spec: redis `zslLexValueGteMin` (zset library, not under src/)
compares a member against the lower lex bound. -/
def zslLexValueGteMin (m : MemberStr) (r : ZLexRange) : Bool :=
  match r.min with
  | LexBound.minusInf => true
  | LexBound.plusInf => false
  | LexBound.closed s => decide (s ≤ m)
  | LexBound.opn s => decide (s < m)

/-- Modelled from the spec: redis `zslLexValueLteMax` compares a member against the
upper lex bound. -/
def zslLexValueLteMax (m : MemberStr) (r : ZLexRange) : Bool :=
  match r.max with
  | LexBound.minusInf => false
  | LexBound.plusInf => true
  | LexBound.closed s => decide (m ≤ s)
  | LexBound.opn s => decide (m < s)

/-- Embeds the lex branch of `IntervalVisitor::ExtractListPack`
(zset_family.cc:554-600), with `zzlFirstInLexRange`/`zzlLastInLexRange` modelled from
the spec as the first (resp. last) entry above (resp. below) the bound: start at the
first in-range entry in traversal direction, skip `offset` entries, then collect
while the exit bound holds, up to `limit` entries. -/
def ExtractLexListPack (entries : List (EDouble × MemberStr)) (r : ZLexRange)
    (reverse : Bool) (offset limit : Nat) : List MemberStr :=
  let base :=
    if reverse then
      (((entries.reverse.dropWhile (fun p => !zslLexValueLteMax p.2 r)).drop
          offset).takeWhile (fun p => zslLexValueGteMin p.2 r)).take limit
    else
      (((entries.dropWhile (fun p => !zslLexValueGteMin p.2 r)).drop
          offset).takeWhile (fun p => zslLexValueLteMax p.2 r)).take limit
  base.map Prod.snd

def UINT32_MAX : Nat := 4294967295

/-- Embeds `ZSetFamily::ZRangeByLexInternal` plus `ZRangeGeneric` and `OpRange` for a
lex interval without LIMIT (zset_family.cc:2288-2311, 2523-2565): parse both bounds
(`none` models the `kLexRangeErr` reply), swap under `REV` via `GetLexRange`, and
extract. A missing key yields the empty array. -/
def ZRangeByLexCmd (db : ZDb) (key minS maxS : String) (reverse : Bool) :
    Option (List MemberStr) :=
  match ParseLexBound minS, ParseLexBound maxS with
  | some lo, some hi =>
      let r := GetLexRange reverse (lo, hi)
      match dbFind db key with
      | none => some []
      | some z => some (ExtractLexListPack z.entries r reverse 0 UINT32_MAX)
  | _, _ => none

/-- Embeds `GetZrangeSpec` (zset_family.cc:90-102) on the modelled scores: a reversed
score range likewise swaps its endpoints. A score bound is `(value, is_open)`. -/
structure ZScoreRange where
  min : EDouble
  max : EDouble
  minex : Bool
  maxex : Bool
deriving DecidableEq, Repr

def GetZrangeSpec (reverse : Bool) (si : (EDouble × Bool) × (EDouble × Bool)) :
    ZScoreRange :=
  let i := if reverse then (si.2, si.1) else si
  { min := i.1.1, max := i.2.1, minex := i.1.2, maxex := i.2.2 }

/-- Modelled from the spec: redis `zslValueGteMin` (zset library, not under src/):
`minex ? (value > min) : (value >= min)`. -/
def zslValueGteMin (sc : EDouble) (r : ZScoreRange) : Bool :=
  if r.minex then edLt r.min sc else !edLt sc r.min

/-- Modelled from the spec: redis `zslValueLteMax`:
`maxex ? (value < max) : (value <= max)`. -/
def zslValueLteMax (sc : EDouble) (r : ZScoreRange) : Bool :=
  if r.maxex then edLt sc r.max else !edLt r.max sc

/-- Embeds the score branch of `IntervalVisitor::ExtractListPack`
(zset_family.cc:501-543), with `zzlFirstInRange`/`zzlLastInRange` modelled from the
spec: start at the first in-range entry in traversal direction, skip `offset`
entries, then collect while the exit bound (`IsUnder`, zset_family.cc:328-330)
holds, up to `limit` entries. -/
def ExtractScoreListPack (entries : List (EDouble × MemberStr)) (r : ZScoreRange)
    (reverse : Bool) (offset limit : Nat) : List (EDouble × MemberStr) :=
  if reverse then
    (((entries.reverse.dropWhile (fun p => !zslValueLteMax p.1 r)).drop
        offset).takeWhile (fun p => zslValueGteMin p.1 r)).take limit
  else
    (((entries.dropWhile (fun p => !zslValueGteMin p.1 r)).drop
        offset).takeWhile (fun p => zslValueLteMax p.1 r)).take limit

/-! ### ZINTER / ZUNION reply sorting (zset_family.cc:1200-1259, 2111-2148) -/

/-- The aggregation types of ZUNION/ZINTER. -/
inductive AggType where
  | sum : AggType
  | min : AggType
  | max : AggType
  | noop : AggType
deriving DecidableEq, Repr

/-- Embeds `Aggregate` (zset_family.cc:740-752). -/
def Aggregate (v1 v2 : EDouble) : AggType → EDouble
  | AggType.sum => v1.add v2
  | AggType.max => if edLt v1 v2 then v2 else v1
  | AggType.min => if edLt v1 v2 then v1 else v2
  | AggType.noop => EDouble.fin 0

/-- A `ScoredMap` (member to score), as an association list. -/
abbrev ScoredMap := List (MemberStr × EDouble)

/-- Embeds the emplace-or-aggregate step of `UnionScoredMap`
(zset_family.cc:755-771). -/
def smapEmplace (m : ScoredMap) (k : MemberStr) (v : EDouble) (agg : AggType) :
    ScoredMap :=
  if m.any (fun p => p.1 = k) then
    m.map (fun p => if p.1 = k then (k, Aggregate p.2 v agg) else p)
  else m ++ [(k, v)]

/-- Embeds `UnionScoredMap` (zset_family.cc:755-771); the size-based swap of the two
maps is a performance detail with no observable effect on the resulting map. -/
def UnionScoredMap (dest src : ScoredMap) (agg : AggType) : ScoredMap :=
  src.foldl (fun acc p => smapEmplace acc p.1 p.2 agg) dest

/-- Embeds `InterScoredMap` (zset_family.cc:773-794): keep the members present in
both maps, aggregating the scores. -/
def InterScoredMap (dest src : ScoredMap) (agg : AggType) : ScoredMap :=
  dest.filterMap (fun p =>
    (src.find? (fun q => q.1 = p.1)).map (fun q => (p.1, Aggregate p.2 q.2 agg)))

/-- Embeds `IntersectResults` (zset_family.cc:1074-1098) over the per-shard maps:
an empty input map empties the result. -/
def IntersectResults (results : List ScoredMap) (agg : AggType) : ScoredMap :=
  match results with
  | [] => []
  | m :: rest =>
      rest.foldl (fun acc m' =>
        if m'.isEmpty then [] else InterScoredMap acc m' agg) m

/-- The comparator of `ZSetFamily::ZInter`'s `std::sort` call
(zset_family.cc:2141-2144): ascending score only. -/
def zinterLe (a b : MemberStr × EDouble) : Bool := !edLt b.2 a.2

/-- The comparator of `ZUnionFamilyInternal`'s `std::sort` call
(zset_family.cc:1249): the default pair order on `(score, member)`, i.e. by score
with ties broken by the member bytes. -/
def zunionLe (a b : EDouble × MemberStr) : Bool :=
  edLt a.1 b.1 || (a.1 = b.1 && decide (a.2 ≤ b.2))

/-- Embeds the reply construction of `ZSetFamily::ZInter` (zset_family.cc:2111-2148):
intersect all per-shard maps, then sort the `(member, score)` pairs by ascending
score. `std::sort` is modelled by insertion sort, which establishes the same
ordering contract. -/
def ZInterReply (maps : List ScoredMap) (agg : AggType) : List (MemberStr × EDouble) :=
  List.insertionSort (fun a b => zinterLe a b) (IntersectResults maps agg)

/-- Embeds the reply construction of `ZUnionFamilyInternal` without STORE
(zset_family.cc:1223-1258): union all per-shard maps, flip each entry into a
`(score, member)` pair and sort by the pair order. -/
def ZUnionReply (maps : List ScoredMap) (agg : AggType) : List (EDouble × MemberStr) :=
  let result := maps.foldl (fun acc m => UnionScoredMap acc m agg) []
  List.insertionSort (fun a b => zunionLe a b) (result.map (fun p => (p.2, p.1)))

/-! ## Tiered storage (tiered_storage.cc)

The stash/fetch pipeline of `TieredStorage`. A value cell is modelled by the parts
the pipeline inspects: whether it is in memory or external, its `IO_PENDING` flag and
its object type. The `OpManager`/`SmallBins` internals (server/tiering, not under
src/) are modelled from the spec by the pending-stash counter and a current-bin fill
state. -/

/-- Object types as far as tiering cares: only strings are stashed. -/
inductive TObjType where
  | str : TObjType
  | other : TObjType
deriving DecidableEq, Repr

/-- The in-memory-or-external payload of a value cell. -/
inductive TKind where
  | inMem : String → TKind
  | external : Nat → Nat → TKind
deriving DecidableEq, Repr

/-- The slice of a `CompactObj`/`PrimeValue` that the tiering pipeline reads and
writes. -/
structure TValue where
  kind : TKind
  ioPending : Bool
  objType : TObjType
deriving DecidableEq, Repr

def TValue.isExternal (v : TValue) : Bool :=
  match v.kind with
  | TKind.external _ _ => true
  | _ => false

/-- Embeds `PrimeValue::GetExternalSlice` as the `(offset, length)` descriptor. -/
def TValue.externalSlice : TValue → Option (Nat × Nat)
  | { kind := TKind.external o l, .. } => some (o, l)
  | _ => none

def TValue.size (v : TValue) : Nat :=
  match v.kind with
  | TKind.inMem s => s.length
  | TKind.external _ l => l

/-- Tiering configuration: `tiered_storage_write_depth`,
`tiered_storage_cache_fetched`, the stash thresholds `kMinValueSize` and
`kMinOccupancySize`, the page size and the file capacity. -/
structure TConfig where
  writeDepthLimit : Nat
  cacheFetched : Bool
  minValueSize : Nat
  minOccupancySize : Nat
  pageSize : Nat
  maxFileSize : Nat
deriving DecidableEq, Repr

/-- Embeds `OccupiesWholePages` (tiered_storage.cc:45-47). -/
def OccupiesWholePages (cfg : TConfig) (size : Nat) : Bool :=
  size ≥ cfg.minOccupancySize

/-- Shard-level tiering state: the OpManager pending-stash count and disk usage
(modelled from the spec, server/tiering is not under src/), the overflow counter of
`TieredStorage` and whether the current small bin would be full after one more entry
(`SmallBins::Stash` returns a bin page exactly when the bin filled up). -/
structure TieredState where
  pendingStashCnt : Nat
  stashOverflowCnt : Nat
  diskAllocatedBytes : Nat
  binFull : Bool
deriving DecidableEq, Repr

/-- Modelled from the spec: `OpManager::Stash` enqueues one asynchronous stash
request, incrementing the pending-stash count. -/
def opManagerStash (ts : TieredState) : TieredState :=
  { ts with pendingStashCnt := ts.pendingStashCnt + 1 }

/-- Embeds `TieredStorage::ShouldStash` (tiered_storage.cc:443-448). -/
def ShouldStash (cfg : TConfig) (ts : TieredState) (pv : TValue) : Bool :=
  !pv.isExternal && !pv.ioPending && pv.objType = TObjType.str &&
  pv.size ≥ cfg.minValueSize &&
  ts.diskAllocatedBytes + cfg.pageSize + pv.size < cfg.maxFileSize

/-- Embeds `TieredStorage::TryStash` (tiered_storage.cc:320-354): refuse ineligible
values; when the pending-stash count already reached `write_depth_limit`, record a
stash overflow and refuse, leaving the value untouched; otherwise set `IO_PENDING`
and enqueue — directly for whole-page values, or into the current small bin, which
issues a stash only when the bin page fills up. The immediate-error path of
`OpManager::Stash` (I/O submission failure) is not modelled. -/
def TryStash (cfg : TConfig) (ts : TieredState) (pv : TValue) :
    Bool × TieredState × TValue :=
  if ¬ ShouldStash cfg ts pv then (false, ts, pv)
  else if ts.pendingStashCnt ≥ cfg.writeDepthLimit then
    (false, { ts with stashOverflowCnt := ts.stashOverflowCnt + 1 }, pv)
  else
    let pv' := { pv with ioPending := true }
    if OccupiesWholePages cfg pv.size then (true, opManagerStash ts, pv')
    else if ts.binFull then (true, opManagerStash { ts with binFull := false }, pv')
    else (true, ts, pv')

/-- Embeds the traversal loop of `TieredStorage::RunOffloading`
(tiered_storage.cc:433-440) over the prime-table entries (one entry per traversal
step): stop as soon as the pending-stash count reaches `write_depth_limit`, otherwise
`TryStash` the entry and continue. The ≈500-iteration responsiveness cap is subsumed
by the finite table. -/
def runOffloadLoop (cfg : TConfig) : TieredState → List TValue →
    TieredState × List TValue
  | ts, [] => (ts, [])
  | ts, v :: rest =>
      if ts.pendingStashCnt ≥ cfg.writeDepthLimit then (ts, v :: rest)
      else
        let r := TryStash cfg ts v
        let rec' := runOffloadLoop cfg r.2.1 rest
        (rec'.1, r.2.2 :: rec'.2)

/-- Embeds `TieredStorage::RunOffloading` (tiered_storage.cc:414-441): suspended
while a snapshot is in progress or the disk is near capacity, otherwise runs the
traversal loop. -/
def RunOffloading (cfg : TConfig) (snapshotInProgress : Bool) (ts : TieredState)
    (table : List TValue) : TieredState × List TValue :=
  if snapshotInProgress then (ts, table)
  else if ts.diskAllocatedBytes + 250 * cfg.pageSize > cfg.maxFileSize then (ts, table)
  else runOffloadLoop cfg ts table

/-- Embeds `ShardOpManager::Upload` (tiered_storage.cc:131-136): materialize the
fetched bytes as the in-memory string of the owning cell. The ASCII re-encoding of
`Materialize(value, is_raw)` is byte-level detail outside this model. -/
def Upload (value : String) (pv : TValue) : TValue :=
  { pv with kind := TKind.inMem value }

/-- Embeds `ShardOpManager::NotifyFetched` for a regular (non-fragmented-bin) entry
(tiered_storage.cc:188-218): upload back to memory exactly when `modified` is set, or
fetched-value caching is enabled and no snapshot is in progress; the returned flag
tells the OpManager whether the in-memory copy now supersedes the fetch. `found` is
the cell found by key in the prime table, if any. The `kFragmentedBin` sentinel
branch dispatches to `Defragment` and is outside this claim's scope. -/
def NotifyFetched (cfg : TConfig) (snapshotInProgress : Bool) (found : Option TValue)
    (value : String) (segment : Nat × Nat) (modified : Bool) :
    Bool × Option TValue :=
  let shouldUpload := modified || (cfg.cacheFetched && !snapshotInProgress)
  if !shouldUpload then (false, found)
  else
    match found with
    | some pv =>
        if pv.isExternal && pv.externalSlice = some segment then
          (true, some (Upload value pv))
        else (false, found)
    | none => (false, none)

/-- Whether a hash object currently holds the field (expired StringMap entries are
treated as absent, matching the TTL semantics of the spec). -/
def hvHasField (now : Nat) : HashVal → String → Bool
  | HashVal.listpack lp, f => lp.any (fun p => p.1 = f)
  | HashVal.strMap sm, f => sm.any (fun e => e.field = f && smLive now e)

/-- The StringMap holding exactly the pairs of a listpack, in listpack order and
without TTLs. -/
def smOfLp (lp : Listpack) : StringMap := lp.map (fun p => ⟨p.1, p.2, none⟩)

/-- Whether a stored hash is in the hashed (StringMap) encoding. -/
def isStrMapEnc : Option HashVal → Bool
  | some (HashVal.strMap _) => true
  | _ => false

/-! ## Supporting lemmas -/

theorem dbFind_nil {β : Type} (k : String) : dbFind ([] : List (String × β)) k = none :=
  rfl

theorem dbFind_cons {β : Type} (p : String × β) (rest : List (String × β)) (k : String) :
    dbFind (p :: rest) k = if p.1 = k then some p.2 else dbFind rest k := by
  by_cases h : p.1 = k <;> simp [dbFind, List.find?, h]

theorem dbFind_dbSet {β : Type} (db : List (String × β)) (k : String) (v : β) :
    dbFind (dbSet db k v) k = some v := by
  induction db with
  | nil => simp [dbSet, dbFind_cons]
  | cons p rest ih =>
      by_cases h : p.1 = k
      · simp [dbSet, h, dbFind_cons]
      · simp [dbSet, h, dbFind_cons, ih]

theorem dbFind_dbDel {β : Type} (db : List (String × β)) (k : String) :
    dbFind (dbDel db k) k = none := by
  induction db with
  | nil => rfl
  | cons p rest ih =>
      by_cases h : p.1 = k
      · simpa [dbDel, h] using ih
      · simpa [dbDel, h, dbFind_cons] using ih

theorem dbSet_eq_self {β : Type} {db : List (String × β)} {k : String} {v : β}
    (h : dbFind db k = some v) : dbSet db k v = db := by
  induction db with
  | nil => simp [dbFind_nil] at h
  | cons p rest ih =>
      obtain ⟨pk, pv⟩ := p
      by_cases hk : pk = k
      · subst hk
        rw [dbFind_cons] at h
        simp only [if_pos trivial, Option.some_inj] at h
        simp [dbSet, ← h]
      · rw [dbFind_cons] at h
        simp only [hk, if_neg, ite_false] at h
        simp [dbSet, hk, ih h]

theorem isExternal_of_slice {pv : TValue} {seg : Nat × Nat}
    (h : pv.externalSlice = some seg) : pv.isExternal = true := by
  obtain ⟨kind, io, ot⟩ := pv
  cases kind with
  | inMem s => simp [TValue.externalSlice] at h
  | external o l => simp [TValue.isExternal]

/-! ## Claim theorems -/

/-- Claim C4: concurrent in-flight stash requests never exceed the configured
`tiered_storage_write_depth`. Conjunct 1: a `TryStash` call on a stash-eligible value
that finds the pending-stash count at (or above) `write_depth_limit` records a stash
overflow, returns false and leaves the in-memory value unchanged (in particular its
`IO_PENDING` flag is not set). Conjunct 2: `TryStash` preserves the bound
`pending_stash_cnt ≤ write_depth_limit`. Conjunct 3: so does the `RunOffloading`
traversal loop, which checks the bound before every step. Conjunct 4: once the limit
is reached, `RunOffloading` issues no stash and changes nothing. -/
theorem tiered_write_depth_invariant :
    (∀ (cfg : TConfig) (ts : TieredState) (pv : TValue),
      ShouldStash cfg ts pv = true →
      ts.pendingStashCnt ≥ cfg.writeDepthLimit →
      TryStash cfg ts pv =
        (false, { ts with stashOverflowCnt := ts.stashOverflowCnt + 1 }, pv)) ∧
    (∀ (cfg : TConfig) (ts : TieredState) (pv : TValue),
      ts.pendingStashCnt ≤ cfg.writeDepthLimit →
      (TryStash cfg ts pv).2.1.pendingStashCnt ≤ cfg.writeDepthLimit) ∧
    (∀ (cfg : TConfig) (ts : TieredState) (table : List TValue),
      ts.pendingStashCnt ≤ cfg.writeDepthLimit →
      (runOffloadLoop cfg ts table).1.pendingStashCnt ≤ cfg.writeDepthLimit) ∧
    (∀ (cfg : TConfig) (snap : Bool) (ts : TieredState) (table : List TValue),
      ts.pendingStashCnt ≥ cfg.writeDepthLimit →
      RunOffloading cfg snap ts table = (ts, table)) := by
  have htry : ∀ (cfg : TConfig) (ts : TieredState) (pv : TValue),
      ts.pendingStashCnt ≤ cfg.writeDepthLimit →
      (TryStash cfg ts pv).2.1.pendingStashCnt ≤ cfg.writeDepthLimit := by
    intro cfg ts pv h
    unfold TryStash
    by_cases hs : ShouldStash cfg ts pv = true
    · by_cases hp : ts.pendingStashCnt ≥ cfg.writeDepthLimit
      · simp [hs, hp]
        exact h
      · have hlt : ts.pendingStashCnt < cfg.writeDepthLimit := by omega
        by_cases hw : OccupiesWholePages cfg pv.size = true
        · simp [hs, hp, hw, opManagerStash]; omega
        · by_cases hb : ts.binFull = true
          · simp [hs, hp, hw, hb, opManagerStash]; omega
          · simp [hs, hp, hw, hb]; omega
    · simp [hs]
      exact h
  refine ⟨?_, htry, ?_, ?_⟩
  · intro cfg ts pv hs hp
    unfold TryStash
    simp [hs, hp]
  · intro cfg ts table h
    induction table generalizing ts with
    | nil => simpa [runOffloadLoop] using h
    | cons v rest ih =>
        unfold runOffloadLoop
        by_cases hp : ts.pendingStashCnt ≥ cfg.writeDepthLimit
        · simpa [hp] using h
        · simp only [hp, if_false, ite_false]
          exact ih _ (htry cfg ts v h)
  · intro cfg snap ts table h
    unfold RunOffloading
    by_cases hsnap : snap = true
    · simp [hsnap]
    · by_cases hdisk : ts.diskAllocatedBytes + 250 * cfg.pageSize > cfg.maxFileSize
      · simp [hsnap, hdisk]
      · cases table with
        | nil => simp [hsnap, hdisk, runOffloadLoop]
        | cons v rest => simp [hsnap, hdisk, runOffloadLoop, h]

/-- Witness for C4: the write-depth invariant applied at a concrete state at the
limit (depth 2, two pending stashes) with an eligible 100-byte string value. -/
theorem tiered_write_depth_invariant_witness :
    TryStash ⟨2, true, 10, 1000, 4096, 100000⟩ ⟨2, 0, 0, false⟩
        ⟨TKind.inMem (String.mk (List.replicate 100 'x')), false, TObjType.str⟩ =
      (false, ⟨2, 1, 0, false⟩,
       ⟨TKind.inMem (String.mk (List.replicate 100 'x')), false, TObjType.str⟩) ∧
    (runOffloadLoop ⟨2, true, 10, 1000, 4096, 100000⟩ ⟨1, 0, 0, false⟩
        [⟨TKind.inMem (String.mk (List.replicate 100 'x')), false, TObjType.str⟩,
         ⟨TKind.inMem (String.mk (List.replicate 200 'y')), false, TObjType.str⟩,
         ⟨TKind.inMem (String.mk (List.replicate 300 'z')), false,
          TObjType.str⟩]).1.pendingStashCnt ≤ 2 ∧
    RunOffloading ⟨2, true, 10, 1000, 4096, 100000⟩ false ⟨2, 5, 0, false⟩ [] =
      (⟨2, 5, 0, false⟩, []) := by
  refine ⟨?_, ?_, ?_⟩
  · exact tiered_write_depth_invariant.1 _ _ _ (by decide) (by decide)
  · exact tiered_write_depth_invariant.2.2.1 _ _ _ (by decide)
  · exact tiered_write_depth_invariant.2.2.2 _ _ _ _ (by decide)

/-- Claim C5: for a completed tiered fetch of a regular (non-fragmented-bin) entry
whose owning cell is still external at the same segment, `NotifyFetched` uploads the
decoded value back into memory (materializing the cell as an in-memory string) if and
only if `modified` is true, or caching of fetched values is enabled and no snapshot
is in progress; when it does not upload, the entry stays external and unchanged. -/
theorem notify_fetched_upload_iff (cfg : TConfig) (snap : Bool) (pv : TValue)
    (value : String) (seg : Nat × Nat) (modified : Bool)
    (hext : pv.externalSlice = some seg) :
    ((NotifyFetched cfg snap (some pv) value seg modified).1 = true ↔
      (modified = true ∨ (cfg.cacheFetched = true ∧ snap = false))) ∧
    ((NotifyFetched cfg snap (some pv) value seg modified).1 = true →
      (NotifyFetched cfg snap (some pv) value seg modified).2 =
        some { pv with kind := TKind.inMem value }) ∧
    ((NotifyFetched cfg snap (some pv) value seg modified).1 = false →
      (NotifyFetched cfg snap (some pv) value seg modified).2 = some pv) := by
  have hisext := isExternal_of_slice hext
  cases modified with
  | true => simp [NotifyFetched, hisext, hext, Upload]
  | false =>
      cases hcval : cfg.cacheFetched with
      | true =>
          cases snap with
          | true => simp [NotifyFetched, hcval]
          | false => simp [NotifyFetched, hcval, hisext, hext, Upload]
      | false => cases snap <;> simp [NotifyFetched, hcval]

/-- Witness for C5: a concrete external 8-byte value at segment (4096, 8), fetched
with caching enabled and no snapshot running, is uploaded back into memory. -/
theorem notify_fetched_upload_iff_witness :
    ((NotifyFetched ⟨2, true, 10, 1000, 4096, 100000⟩ false
        (some ⟨TKind.external 4096 8, false, TObjType.str⟩) "abcdefgh" (4096, 8)
        false).1 = true ↔
      (false = true ∨ (true = true ∧ false = false))) ∧
    ((NotifyFetched ⟨2, true, 10, 1000, 4096, 100000⟩ false
        (some ⟨TKind.external 4096 8, false, TObjType.str⟩) "abcdefgh" (4096, 8)
        false).1 = true →
      (NotifyFetched ⟨2, true, 10, 1000, 4096, 100000⟩ false
        (some ⟨TKind.external 4096 8, false, TObjType.str⟩) "abcdefgh" (4096, 8)
        false).2 = some ⟨TKind.inMem "abcdefgh", false, TObjType.str⟩) := by
  have h := notify_fetched_upload_iff ⟨2, true, 10, 1000, 4096, 100000⟩ false
    ⟨TKind.external 4096 8, false, TObjType.str⟩ "abcdefgh" (4096, 8) false (by decide)
  exact ⟨h.1, h.2.1⟩

theorem LpDelete_not_found {lp : Listpack} {f : String}
    (h : ∀ p ∈ lp, p.1 ≠ f) : LpDelete lp f = (lp, false) := by
  induction lp with
  | nil => rfl
  | cons p rest ih =>
      have hp : p.1 ≠ f := h p (List.mem_cons_self p rest)
      have hrest : ∀ q ∈ rest, q.1 ≠ f := fun q hq => h q (List.mem_cons_of_mem p hq)
      simp [LpDelete, hp, ih hrest]

theorem smErase_not_found {now : Nat} {sm : StringMap} {f : String}
    (h : ∀ e ∈ sm, (e.field = f && smLive now e) = false) :
    smErase now sm f = (sm, false) := by
  induction sm with
  | nil => rfl
  | cons e rest ih =>
      have he := h e (List.mem_cons_self e rest)
      have hrest : ∀ q ∈ rest, (q.field = f && smLive now q) = false :=
        fun q hq => h q (List.mem_cons_of_mem e hq)
      simp only [smErase, he]
      simp [ih hrest]

/-- Claim C9: HDEL of a field that is not present in the hash (including when the key
itself does not exist) contributes 0 to the reply count and leaves the database state
unchanged: the hash contents, its encoding and the stats are the same before and
after. -/
theorem hdel_missing_field_noop (now : Nat) (st : HState) (key field : String)
    (h : ∀ hv, dbFind st.db key = some hv → hvHasField now hv field = false) :
    HDel now st key [field] = (st, 0) := by
  cases hfind : dbFind st.db key with
  | none => simp [HDel, OpDel, hfind]
  | some hv =>
      have hh := h hv hfind
      cases hv with
      | listpack lp =>
          have hnone : ∀ p ∈ lp, p.1 ≠ field := by
            simpa [hvHasField, List.any_eq_false] using hh
          simp only [HDel, OpDel, hfind]
          simp only [lpDelLoop, LpDelete_not_found hnone]
          simp [dbSet_eq_self hfind, Int.sub_add_cancel]
      | strMap sm =>
          have hnone : ∀ e ∈ sm, (e.field = field && smLive now e) = false := by
            intro e he
            simp [hvHasField, List.any_eq_false] at hh
            by_cases hf : e.field = field
            · simp [hf, hh e he hf]
            · simp [hf]
          simp only [HDel, OpDel, hfind]
          simp only [smDelLoop, smErase_not_found hnone]
          simp [dbSet_eq_self hfind]

/-- Witness for C9: deleting the absent field "g" from the one-field listpack hash at
key "h" returns 0 and leaves the state untouched. -/
theorem hdel_missing_field_noop_witness :
    HDel 0 ⟨[("h", HashVal.listpack [("f", "v")])], ⟨1, 22⟩⟩ "h" ["g"] =
      (⟨[("h", HashVal.listpack [("f", "v")])], ⟨1, 22⟩⟩, 0) :=
  hdel_missing_field_noop 0 ⟨[("h", HashVal.listpack [("f", "v")])], ⟨1, 22⟩⟩ "h" "g"
    (by decide)

theorem convertToStrMap_go (lp : Listpack) :
    ∀ acc : StringMap,
      (∀ p ∈ lp, ∀ e ∈ acc, e.field ≠ p.1) →
      (lp.map Prod.fst).Nodup →
      lp.foldl (fun sm p => (smAddOrUpdate sm p.1 p.2 none).1) acc = acc ++ smOfLp lp := by
  induction lp with
  | nil =>
      intro acc _ _
      simp [smOfLp]
  | cons p rest ih =>
      intro acc hdisj hnodup
      have hnotin : acc.any (fun e => e.field = p.1) = false := by
        simp only [List.any_eq_false]
        intro e he
        simpa using hdisj p (List.mem_cons_self p rest) e he
      have hstep : (smAddOrUpdate acc p.1 p.2 none).1 = acc ++ [⟨p.1, p.2, none⟩] := by
        simp [smAddOrUpdate, hnotin]
      have hcons : (p.1 :: rest.map Prod.fst).Nodup := by simpa using hnodup
      have hfst : p.1 ∉ rest.map Prod.fst := (List.nodup_cons.mp hcons).1
      have hnodup' : (rest.map Prod.fst).Nodup := (List.nodup_cons.mp hcons).2
      have hdisj' : ∀ q ∈ rest,
          ∀ e ∈ acc ++ [(⟨p.1, p.2, none⟩ : SMapEntry)], e.field ≠ q.1 := by
        intro q hq e he
        rcases List.mem_append.mp he with h1 | h2
        · exact hdisj q (List.mem_cons_of_mem p hq) e h1
        · have he2 : e = (⟨p.1, p.2, none⟩ : SMapEntry) := by simpa using h2
          subst he2
          intro hcontra
          exact hfst (by simpa [← hcontra] using List.mem_map_of_mem Prod.fst hq)
      have hres := ih (acc ++ [(⟨p.1, p.2, none⟩ : SMapEntry)]) hdisj' hnodup'
      simp only [List.foldl_cons, hstep]
      rw [hres]
      simp [smOfLp]

/-- Claim C2: for every listpack hash with distinct fields (the listpack invariant
maintained by `LpInsert`), `ConvertToStrMap` preserves contents: it performs one
traversal whose result holds exactly the listpack's `(field, value)` pairs, in
particular the multiset of pairs in the produced StringMap equals the multiset of
pairs stored in the source listpack. -/
theorem convert_to_strmap_preserves_pairs (lp : Listpack)
    (hnodup : (lp.map Prod.fst).Nodup) :
    (ConvertToStrMap lp).map (fun e => (e.field, e.val)) = lp ∧
    (((ConvertToStrMap lp).map (fun e => (e.field, e.val)) : List (String × String)) :
        Multiset (String × String)) = (lp : Multiset (String × String)) := by
  have h := convertToStrMap_go lp [] (by intro p _ e he; simp at he) hnodup
  have hlist : (ConvertToStrMap lp).map (fun e => (e.field, e.val)) = lp := by
    rw [ConvertToStrMap, h, List.nil_append, smOfLp, List.map_map]
    have hcomp : ((fun e : SMapEntry => (e.field, e.val)) ∘
        fun p : String × String => (⟨p.1, p.2, none⟩ : SMapEntry)) = id := rfl
    rw [hcomp, List.map_id]
  exact ⟨hlist, by rw [hlist]⟩

/-- Witness for C2: converting the two-field listpack of the C1 scenario preserves
its pairs. -/
theorem convert_to_strmap_preserves_pairs_witness :
    (ConvertToStrMap [("f1", "v1"), ("f2", "v2")]).map (fun e => (e.field, e.val)) =
      [("f1", "v1"), ("f2", "v2")] :=
  (convert_to_strmap_preserves_pairs [("f1", "v1"), ("f2", "v2")] (by decide)).1

theorem OpSet_new_listpack (cfg : HConfig) (now : Nat) (st : HState) (key : String)
    (values : List (String × String)) (sp : OpSetParams)
    (hnew : dbFind st.db key = none) (httl : sp.ttl = none)
    (hgood : IsGoodForListpack cfg (flatArgs values) [] = true) :
    (OpSet cfg now st key values sp).1.db =
      dbSet st.db key (HashVal.listpack (lpInsertAll [] values sp.skipIfExists).1) := by
  simp only [OpSet, hnew, httl, Option.isSome_none, Bool.false_or, hgood,
    Bool.not_true, Bool.false_eq_true, if_false]

theorem OpSet_promote (cfg : HConfig) (now : Nat) (st : HState) (key : String)
    (values : List (String × String)) (sp : OpSetParams) (lp : Listpack)
    (hfind : dbFind st.db key = some (HashVal.listpack lp))
    (hcond : (sp.ttl.isSome || !IsGoodForListpack cfg (flatArgs values) lp) = true) :
    (OpSet cfg now st key values sp).1.db =
      dbSet st.db key (HashVal.strMap
        (smInsertAll (ConvertToStrMap lp) values sp.skipIfExists
          (sp.ttl.map (now + ·))).1) := by
  simp only [OpSet, hfind, hcond, if_true]

theorem OpSet_stay_listpack (cfg : HConfig) (now : Nat) (st : HState) (key : String)
    (values : List (String × String)) (sp : OpSetParams) (lp : Listpack)
    (hfind : dbFind st.db key = some (HashVal.listpack lp))
    (hcond : (sp.ttl.isSome || !IsGoodForListpack cfg (flatArgs values) lp) = false) :
    (OpSet cfg now st key values sp).1.db =
      dbSet st.db key (HashVal.listpack (lpInsertAll lp values sp.skipIfExists).1) := by
  simp only [OpSet, hfind, hcond, Bool.false_eq_true, if_false]

/-- Claim C1 counterexample: the claim asserts that a hash promotes to the hashed
encoding when "the number of members exceeds the configured max-listpack-entries".
With the entries bound configured to 2, `HSET h a 1 b 2 c 3` creates a hash with
3 members, all fields and values within `max_map_field_len` and total bytes within
`max_listpack_map_bytes` — and the hash stays in the listpack encoding: the hash
family has no member-count promotion condition (the entries bound is applied only to
sorted sets). -/
theorem hset_promotion_counterexample :
    (let cfg : HConfig := ⟨16, 1024, 2⟩
     let st := (OpSet cfg 0 ⟨[], ⟨0, 0⟩⟩ "h" [("a", "1"), ("b", "2"), ("c", "3")] {}).1
     dbFind st.db "h" = some (HashVal.listpack [("a", "1"), ("b", "2"), ("c", "3")]) ∧
     HLen st "h" = 3 ∧ 3 > cfg.zsetMaxListpackEntries ∧
     isStrMapEnc (dbFind st.db "h") = false) := by decide

/-- Claim C1 (amended): the member-count condition does not apply to hashes.
Conjunct 1 is the spec scenario: after `HSET h f1 v1 f2 v2` on a fresh key (with
distinct fields, and small enough for the listpack), a subsequent
`HSET h f3 v` with `v` of length `max_map_field_len + 1` converts the hash to the
hashed (StringMap) encoding, after which `HLEN h = 3` and `HGET h f1 = v1`.
Conjunct 2 is the amended promotion policy: an `HSET`-family write on an existing
listpack hash promotes it to the hashed encoding exactly when a per-field TTL is
requested or `IsGoodForListpack` fails (a new field or value exceeds
`max_map_field_len`, or the total listpack bytes would reach
`max_listpack_map_bytes`). -/
theorem hset_promotion_amended (cfg : HConfig) (now : Nat) (st : HState)
    (key f1 v1 f2 v2 f3 v : String)
    (hnew : dbFind st.db key = none)
    (h12 : f1 ≠ f2) (h31 : f3 ≠ f1) (h32 : f3 ≠ f2)
    (hgood : IsGoodForListpack cfg [f1, v1, f2, v2] [] = true)
    (hvlen : v.length = cfg.maxMapFieldLen + 1) :
    (let st1 := (OpSet cfg now st key [(f1, v1), (f2, v2)] {}).1
     let st2 := (OpSet cfg now st1 key [(f3, v)] {}).1
     dbFind st2.db key =
        some (HashVal.strMap [⟨f1, v1, none⟩, ⟨f2, v2, none⟩, ⟨f3, v, none⟩]) ∧
     HLen st2 key = 3 ∧ HGet now st2 key f1 = some v1) ∧
    (∀ (st' : HState) (lp : Listpack) (values : List (String × String))
        (sp : OpSetParams),
      dbFind st'.db key = some (HashVal.listpack lp) →
      isStrMapEnc (dbFind ((OpSet cfg now st' key values sp).1).db key) =
        (sp.ttl.isSome || !IsGoodForListpack cfg (flatArgs values) lp)) := by
  constructor
  · have hins1 : (lpInsertAll [] [(f1, v1), (f2, v2)] false).1 =
        [(f1, v1), (f2, v2)] := by
      simp [lpInsertAll, LpInsert, h12]
    have hdb1 : (OpSet cfg now st key [(f1, v1), (f2, v2)] {}).1.db =
        dbSet st.db key (HashVal.listpack [(f1, v1), (f2, v2)]) := by
      rw [OpSet_new_listpack cfg now st key [(f1, v1), (f2, v2)] {} hnew rfl
        (by simpa [flatArgs] using hgood)]
      rw [show ({} : OpSetParams).skipIfExists = false from rfl, hins1]
    have hfind1 : dbFind ((OpSet cfg now st key [(f1, v1), (f2, v2)] {}).1).db key =
        some (HashVal.listpack [(f1, v1), (f2, v2)]) := by
      rw [hdb1]; exact dbFind_dbSet _ _ _
    have hcond2 : (({} : OpSetParams).ttl.isSome ||
        !IsGoodForListpack cfg (flatArgs [(f3, v)]) [(f1, v1), (f2, v2)]) = true := by
      simp [IsGoodForListpack, flatArgs, hvlen]
    have hconv : ConvertToStrMap [(f1, v1), (f2, v2)] =
        [⟨f1, v1, none⟩, ⟨f2, v2, none⟩] := by
      simp [ConvertToStrMap, smAddOrUpdate, h12]
    have hins2 : (smInsertAll [⟨f1, v1, none⟩, ⟨f2, v2, none⟩] [(f3, v)] false
        none).1 = [⟨f1, v1, none⟩, ⟨f2, v2, none⟩, ⟨f3, v, none⟩] := by
      simp [smInsertAll, smAddOrUpdate, h31, h32, Ne.symm h31, Ne.symm h32]
    have hdb2 : ((OpSet cfg now (OpSet cfg now st key [(f1, v1), (f2, v2)] {}).1
        key [(f3, v)] {}).1).db =
        dbSet ((OpSet cfg now st key [(f1, v1), (f2, v2)] {}).1).db key
          (HashVal.strMap [⟨f1, v1, none⟩, ⟨f2, v2, none⟩, ⟨f3, v, none⟩]) := by
      rw [OpSet_promote cfg now _ key [(f3, v)] {} [(f1, v1), (f2, v2)] hfind1 hcond2]
      rw [show ({} : OpSetParams).skipIfExists = false from rfl,
        show (({} : OpSetParams).ttl.map (now + ·)) = none from rfl, hconv, hins2]
    have hfind2 := dbFind_dbSet
      ((OpSet cfg now st key [(f1, v1), (f2, v2)] {}).1).db key
      (HashVal.strMap [⟨f1, v1, none⟩, ⟨f2, v2, none⟩, ⟨f3, v, none⟩])
    refine ⟨by rw [hdb2]; exact hfind2, ?_, ?_⟩
    · simp only [HLen]
      rw [hdb2, hfind2]
      rfl
    · simp only [HGet]
      rw [hdb2, hfind2]
      simp [smFind, List.find?, smLive]
  · intro st' lp values sp hfind
    cases hcond :
        (sp.ttl.isSome || !IsGoodForListpack cfg (flatArgs values) lp) with
    | true =>
        rw [OpSet_promote cfg now st' key values sp lp hfind hcond]
        simp [isStrMapEnc, dbFind_dbSet]
    | false =>
        rw [OpSet_stay_listpack cfg now st' key values sp lp hfind hcond]
        simp [isStrMapEnc, dbFind_dbSet]

/-- Witness for C1 (amended): the scenario at `max_map_field_len = 4` with fields
f1, f2, f3 and a 5-byte value, plus the promotion policy applied to a concrete
oversized write on a listpack hash. -/
theorem hset_promotion_amended_witness :
    (let st1 := (OpSet ⟨4, 1000, 128⟩ 0 ⟨[], ⟨0, 0⟩⟩ "h"
        [("f1", "v1"), ("f2", "v2")] {}).1
     let st2 := (OpSet ⟨4, 1000, 128⟩ 0 st1 "h" [("f3", "abcde")] {}).1
     dbFind st2.db "h" =
        some (HashVal.strMap
          [⟨"f1", "v1", none⟩, ⟨"f2", "v2", none⟩, ⟨"f3", "abcde", none⟩]) ∧
     HLen st2 "h" = 3 ∧ HGet 0 st2 "h" "f1" = some "v1") ∧
    (∀ (st' : HState) (lp : Listpack) (values : List (String × String))
        (sp : OpSetParams),
      dbFind st'.db "h" = some (HashVal.listpack lp) →
      isStrMapEnc (dbFind ((OpSet ⟨4, 1000, 128⟩ 0 st' "h" values sp).1).db "h") =
        (sp.ttl.isSome || !IsGoodForListpack ⟨4, 1000, 128⟩ (flatArgs values) lp)) :=
  hset_promotion_amended ⟨4, 1000, 128⟩ 0 ⟨[], ⟨0, 0⟩⟩ "h" "f1" "v1" "f2" "v2" "f3"
    "abcde" (by decide) (by decide) (by decide) (by decide) (by decide) (by decide)

/-- Claim C3 counterexample: the claim asserts that after `ZADD z 1 m`, the command
`ZADD z INCR nan m` returns the error "resulting score is not a number (NaN)".
In the code the literal score `nan` is already rejected when the score argument is
parsed (`ParseDouble` treats NaN as an invalid double, zset_family.cc:1893), so the
command replies with the parse error "value is not a valid float" instead — a
different error string — while the stored score indeed stays 1. -/
theorem zadd_incr_nan_counterexample :
    (let cfg : HConfig := ⟨16, 1024, 128⟩
     let db1 := (ZAddCmd cfg [] "z" ["1", "m"]).1
     ZAddCmd cfg db1 "z" ["INCR", "nan", "m"] = (db1, Reply.err kInvalidFloatErr) ∧
     Reply.err kInvalidFloatErr ≠ Reply.err kScoreNaN ∧
     ZScore db1 "z" "m".data = some (EDouble.fin 1)) := by decide

/-- Claim C3 (amended): `ZADD z INCR nan m` after `ZADD z 1 m` fails with the
invalid-float parse error (NaN score literals never reach the set) and leaves the
score of `m` equal to 1 (conjunct 1); the guard `resulting score is not a number
(NaN)` fires when an accepted `INCR` produces a NaN score — after `ZADD z inf m`,
`ZADD z INCR -inf m` replies with exactly that error and leaves the score `inf`
(conjunct 2); and `ZADD` with the `INCR` flag is rejected with an error whenever more
than one score-member pair is supplied (conjunct 3). -/
theorem zadd_incr_nan_amended :
    (let cfg : HConfig := ⟨16, 1024, 128⟩
     let db1 := (ZAddCmd cfg [] "z" ["1", "m"]).1
     ZAddCmd cfg db1 "z" ["INCR", "nan", "m"] = (db1, Reply.err kInvalidFloatErr) ∧
     ZScore db1 "z" "m".data = some (EDouble.fin 1)) ∧
    (let cfg : HConfig := ⟨16, 1024, 128⟩
     let db2 := (ZAddCmd cfg [] "z" ["inf", "m"]).1
     ZAddCmd cfg db2 "z" ["INCR", "-inf", "m"] = (db2, Reply.err kScoreNaN) ∧
     ZScore db2 "z" "m".data = some EDouble.posInf) ∧
    (∀ (cfg : HConfig) (db : ZDb) (key : String) (args : List String) (p : ZParams)
        (rest : List String),
      parseZAddFlags args {} = (p, rest) →
      p.incr = true →
      rest.length % 2 = 0 →
      rest.length > 2 →
      ZAddCmd cfg db key args = (db, Reply.err kIncrPairErr)) := by
  refine ⟨by decide, by decide, ?_⟩
  intro cfg db key args p rest hfr hincr hpar hlen
  simp [ZAddCmd, hfr, hincr, hpar, hlen]

/-- Witness for C3 (amended): the single-pair restriction applied to the concrete
command `ZADD z INCR 1 a 2 b`. -/
theorem zadd_incr_nan_amended_witness :
    ZAddCmd ⟨16, 1024, 128⟩ [] "z" ["INCR", "1", "a", "2", "b"] =
      ([], Reply.err kIncrPairErr) :=
  zadd_incr_nan_amended.2.2 ⟨16, 1024, 128⟩ [] "z" ["INCR", "1", "a", "2", "b"]
    { incr := true } ["1", "a", "2", "b"] (by decide) rfl (by decide) (by decide)

theorem lpDelLoop_nonempty :
    ∀ (fs : List String) (lp : Listpack), lp ≠ [] →
      (lpDelLoop lp fs).2.2 = false → (lpDelLoop lp fs).1 ≠ [] := by
  intro fs
  induction fs with
  | nil =>
      intro lp hne _
      simpa [lpDelLoop] using hne
  | cons f fs ih =>
      intro lp hne hflag
      simp only [lpDelLoop] at hflag ⊢
      cases hdel : (LpDelete lp f).2 with
      | false => simpa [hdel] using ih lp hne (by simpa [hdel] using hflag)
      | true =>
          by_cases hlen : (LpDelete lp f).1.length = 0
          · simp [hdel, hlen] at hflag
          · have hne' : (LpDelete lp f).1 ≠ [] := by
              intro hcon
              exact hlen (by simp [hcon])
            simpa [hdel, hlen] using
              ih (LpDelete lp f).1 hne' (by simpa [hdel, hlen] using hflag)

theorem smDelLoop_nonempty :
    ∀ (fs : List String) (now : Nat) (sm : StringMap), sm ≠ [] →
      (smDelLoop now sm fs).2.2 = false → (smDelLoop now sm fs).1 ≠ [] := by
  intro fs
  induction fs with
  | nil =>
      intro now sm hne _
      simpa [smDelLoop] using hne
  | cons f fs ih =>
      intro now sm hne hflag
      simp only [smDelLoop] at hflag ⊢
      cases hdel : (smErase now sm f).2 with
      | false => simpa [hdel] using ih now sm hne (by simpa [hdel] using hflag)
      | true =>
          by_cases hlen : smUpperBoundSize (smErase now sm f).1 = 0
          · simp [hdel, hlen] at hflag
          · have hne' : (smErase now sm f).1 ≠ [] := by
              intro hcon
              exact hlen (by simp [smUpperBoundSize, hcon])
            simpa [hdel, hlen] using
              ih now (smErase now sm f).1 hne' (by simpa [hdel, hlen] using hflag)

/-- Claim C10: no stored key ever holds an empty hash or empty sorted set.
Conjunct 1: `HDEL` (`OpDel`) on a nonempty hash leaves the key either deleted or
holding a nonempty hash (when the last field is deleted, the key is removed in the
same operation). Conjunct 2: `ZREM` (`OpRem`) likewise deletes the key exactly when
the set became empty, so a surviving key holds a nonempty set. Conjunct 3:
`HRANDFIELD` on a hashed-encoding hash whose live entries have all expired deletes
the key and reports it as not found. -/
theorem no_empty_containers :
    (∀ (now : Nat) (st : HState) (key : String) (fields : List String)
        (st' : HState) (d : Nat) (hv : HashVal),
      dbFind st.db key = some hv → HMapLength hv ≠ 0 →
      OpDel now st key fields = some (st', d) →
      ∀ hv', dbFind st'.db key = some hv' → HMapLength hv' ≠ 0) ∧
    (∀ (db : ZDb) (key : String) (members : List MemberStr) (db' : ZDb) (d : Nat),
      OpRem db key members = some (db', d) →
      ∀ z', dbFind db' key = some z' → z'.entries ≠ []) ∧
    (∀ (now : Nat) (st : HState) (key : String) (sm : StringMap),
      dbFind st.db key = some (HashVal.strMap sm) →
      sm.filter (smLive now) = [] →
      (HRandFieldSingle now st key).1 = none ∧
      dbFind ((HRandFieldSingle now st key).2).db key = none) := by
  refine ⟨?_, ?_, ?_⟩
  · intro now st key fields st' d hv hfind hlen hop hv' hfind'
    cases hv with
    | listpack lp =>
        have hlp : lp ≠ [] := by
          intro hcon
          exact hlen (by simp [hcon, HMapLength])
        simp only [OpDel, hfind] at hop
        cases hflag : (lpDelLoop lp fields).2.2 with
        | true =>
            rw [if_pos (by rw [hflag])] at hop
            obtain ⟨hst, _⟩ := Prod.mk.injEq .. ▸ Option.some.inj hop
            rw [← hst] at hfind'
            simp [dbFind_dbDel] at hfind'
        | false =>
            rw [if_neg (by rw [hflag]; exact Bool.false_ne_true)] at hop
            obtain ⟨hst, _⟩ := Prod.mk.injEq .. ▸ Option.some.inj hop
            rw [← hst] at hfind'
            rw [dbFind_dbSet] at hfind'
            have := lpDelLoop_nonempty fields lp hlp hflag
            rw [← Option.some.inj hfind']
            simpa [HMapLength] using this
    | strMap sm =>
        have hsm : sm ≠ [] := by
          intro hcon
          exact hlen (by simp [hcon, HMapLength, smUpperBoundSize])
        simp only [OpDel, hfind] at hop
        cases hflag : (smDelLoop now sm fields).2.2 with
        | true =>
            rw [if_pos (by rw [hflag])] at hop
            obtain ⟨hst, _⟩ := Prod.mk.injEq .. ▸ Option.some.inj hop
            rw [← hst] at hfind'
            simp [dbFind_dbDel] at hfind'
        | false =>
            rw [if_neg (by rw [hflag]; exact Bool.false_ne_true)] at hop
            obtain ⟨hst, _⟩ := Prod.mk.injEq .. ▸ Option.some.inj hop
            rw [← hst] at hfind'
            rw [dbFind_dbSet] at hfind'
            have := smDelLoop_nonempty fields now sm hsm hflag
            rw [← Option.some.inj hfind']
            simpa [HMapLength, smUpperBoundSize] using this
  · intro db key members db' d hop z' hfind'
    cases hfind : dbFind db key with
    | none => simp [OpRem, hfind] at hop
    | some z =>
        simp only [OpRem, hfind] at hop
        by_cases hlen : (members.foldl
            (fun (acc : ZsetVal × Nat) m =>
              let dd := ZsetDel acc.1 m
              (dd.1, acc.2 + (if dd.2 then 1 else 0))) (z, 0)).1.entries.length = 0
        · rw [if_pos hlen] at hop
          obtain ⟨hdb, _⟩ := Prod.mk.injEq .. ▸ Option.some.inj hop
          rw [← hdb] at hfind'
          simp [dbFind_dbDel] at hfind'
        · rw [if_neg hlen] at hop
          obtain ⟨hdb, _⟩ := Prod.mk.injEq .. ▸ Option.some.inj hop
          rw [← hdb] at hfind'
          rw [dbFind_dbSet] at hfind'
          rw [← Option.some.inj hfind']
          intro hcon
          exact hlen (by rw [hcon]; rfl)
  · intro now st key sm hfind hdead
    constructor
    · simp [HRandFieldSingle, hfind, smRandomPairGC, hdead]
    · simp [HRandFieldSingle, hfind, smRandomPairGC, hdead, dbFind_dbDel]

/-- Witness for C10: deleting the only field of a one-field hash removes the key;
removing the only member of a one-member sorted set removes the key; HRANDFIELD on a
hashed map whose single entry expired at time 5 (queried at time 9) deletes the
key. -/
theorem no_empty_containers_witness :
    (∀ hv', dbFind ((HDel 0 ⟨[("h", HashVal.listpack [("f", "v")])], ⟨1, 22⟩⟩
        "h" ["f"]).1).db "h" = some hv' → HMapLength hv' ≠ 0) ∧
    (∀ z', dbFind (OpRem [("z", ⟨ZEnc.listpack, [(EDouble.fin 1, "m".data)]⟩)]
        "z" ["m".data]).get!.1 "z" = some z' → z'.entries ≠ []) ∧
    ((HRandFieldSingle 9 ⟨[("h", HashVal.strMap [⟨"f", "v", some 5⟩])], ⟨0, 0⟩⟩
        "h").1 = none ∧
     dbFind ((HRandFieldSingle 9 ⟨[("h", HashVal.strMap [⟨"f", "v", some 5⟩])],
        ⟨0, 0⟩⟩ "h").2).db "h" = none) := by
  refine ⟨?_, ?_, ?_⟩
  · intro hv' hfind'
    exact no_empty_containers.1 0 ⟨[("h", HashVal.listpack [("f", "v")])], ⟨1, 22⟩⟩
      "h" ["f"] _ _ (HashVal.listpack [("f", "v")]) (by decide) (by decide) rfl hv'
      hfind'
  · intro z' hfind'
    exact no_empty_containers.2.1 [("z", ⟨ZEnc.listpack, [(EDouble.fin 1, "m".data)]⟩)]
      "z" ["m".data] _ _ rfl z' hfind'
  · exact no_empty_containers.2.2 9
      ⟨[("h", HashVal.strMap [⟨"f", "v", some 5⟩])], ⟨0, 0⟩⟩ "h"
      [⟨"f", "v", some 5⟩] (by decide) (by decide)

theorem lpReplaceVal_find {lp : Listpack} {f : String}
    (h : lp.any (fun p => p.1 = f) = true) (v : String) :
    LpFind (lpReplaceVal lp f v) f = some v := by
  induction lp with
  | nil => simp at h
  | cons p rest ih =>
      by_cases hp : p.1 = f
      · simp [lpReplaceVal, hp, LpFind, List.find?]
      · have h' : rest.any (fun p => p.1 = f) = true := by
          simpa [hp] using h
        simpa [lpReplaceVal, hp, LpFind, List.find?] using ih h'

theorem lpAppend_find {lp : Listpack} {f : String}
    (h : lp.any (fun p => p.1 = f) = false) (v : String) :
    LpFind (lp ++ [(f, v)]) f = some v := by
  induction lp with
  | nil => simp [LpFind, List.find?]
  | cons p rest ih =>
      have hp : p.1 ≠ f := by
        intro hc
        simp [hc] at h
      have h' : rest.any (fun p => p.1 = f) = false := by
        simpa [hp] using h
      simpa [LpFind, List.find?, hp] using ih h'

theorem lpFind_LpInsert (lp : Listpack) (f v : String) :
    LpFind (LpInsert lp f v false).1 f = some v := by
  cases h : lp.any (fun p => p.1 = f) with
  | true =>
      simp only [LpInsert, h, if_true, Bool.false_eq_true, ite_false]
      exact lpReplaceVal_find h v
  | false =>
      simp only [LpInsert, h, Bool.false_eq_true, if_false]
      exact lpAppend_find h v

theorem smReplace_find {sm : StringMap} {f : String} (now : Nat)
    (h : sm.any (fun e => e.field = f) = true) (v : String) :
    smFind now (smReplace sm ⟨f, v, none⟩) f = some v := by
  induction sm with
  | nil => simp at h
  | cons e rest ih =>
      by_cases he : e.field = f
      · simp [smReplace, he, smFind, List.find?, smLive]
      · have h' : rest.any (fun e => e.field = f) = true := by
          simpa [he] using h
        simpa [smReplace, he, smFind, List.find?] using ih h'

theorem smAppend_find {sm : StringMap} {f : String} (now : Nat)
    (h : sm.any (fun e => e.field = f) = false) (v : String) :
    smFind now (sm ++ [⟨f, v, none⟩]) f = some v := by
  induction sm with
  | nil => simp [smFind, List.find?, smLive]
  | cons e rest ih =>
      have he : e.field ≠ f := by
        intro hc
        simp [hc] at h
      have h' : rest.any (fun e => e.field = f) = false := by
        simpa [he] using h
      simpa [smFind, List.find?, he] using ih h'

theorem smFind_smAddOrUpdate (now : Nat) (sm : StringMap) (f v : String) :
    smFind now (smAddOrUpdate sm f v none).1 f = some v := by
  cases h : sm.any (fun e => e.field = f) with
  | true =>
      simp only [smAddOrUpdate, h, if_true]
      exact smReplace_find now h v
  | false =>
      simp only [smAddOrUpdate, h, Bool.false_eq_true, if_false]
      exact smAppend_find now h v

/-- Claim C8: HINCRBY on a field whose value parses as a signed 64-bit integer
`old_val` fails with `OUT_OF_RANGE` exactly when the exact sum `old_val + incr`
leaves the signed 64-bit range — equivalently, exactly under the source's guard
(both strictly positive with `incr > LLONG_MAX - old_val`, or both strictly negative
with `incr < LLONG_MIN - old_val`). Conjunct 1 states both equivalences for
`IncrementValue` and that a successful increment computes `old_val + incr`.
Conjuncts 2 and 3 state, for the listpack and the StringMap encodings, that the
error leaves the stored state (value and stats) unchanged and that success stores
the decimal representation of `old_val + incr` in the field. -/
theorem hincrby_overflow :
    (∀ old incr : Int,
      LLONG_MIN ≤ old → old ≤ LLONG_MAX → LLONG_MIN ≤ incr → incr ≤ LLONG_MAX →
      ((IncrementValueInt (some old) incr = none ↔
          ((incr < 0 ∧ old < 0 ∧ incr < LLONG_MIN - old) ∨
           (incr > 0 ∧ old > 0 ∧ incr > LLONG_MAX - old))) ∧
       (IncrementValueInt (some old) incr = none ↔
          ¬ (LLONG_MIN ≤ old + incr ∧ old + incr ≤ LLONG_MAX)) ∧
       (∀ nv, IncrementValueInt (some old) incr = some nv → nv = old + incr))) ∧
    (∀ (cfg : HConfig) (now : Nat) (st : HState) (key field : String) (incr : Int)
        (lp : Listpack) (s : String) (old : Int),
      dbFind st.db key = some (HashVal.listpack lp) →
      lpBytes lp < cfg.maxListpackMapBytes →
      LpFind lp field = some s →
      string2ll s = some old →
      ((IncrementValueInt (some old) incr = none →
        OpIncrBy cfg now st key field incr = IncrRes.outOfRange st) ∧
       (∀ nv, IncrementValueInt (some old) incr = some nv →
        OpIncrBy cfg now st key field incr = IncrRes.ok nv
          ⟨dbSet st.db key
              (HashVal.listpack (LpInsert lp field (toString nv) false).1),
           ⟨st.stats.listpackBlobCnt,
            st.stats.listpackBytes - lpBytes lp +
              lpBytes (LpInsert lp field (toString nv) false).1⟩⟩ ∧
        LpFind (LpInsert lp field (toString nv) false).1 field =
          some (toString nv)))) ∧
    (∀ (cfg : HConfig) (now : Nat) (st : HState) (key field : String) (incr : Int)
        (sm : StringMap) (s : String) (old : Int),
      dbFind st.db key = some (HashVal.strMap sm) →
      smFind now sm field = some s →
      string2ll s = some old →
      ((IncrementValueInt (some old) incr = none →
        OpIncrBy cfg now st key field incr = IncrRes.outOfRange st) ∧
       (∀ nv, IncrementValueInt (some old) incr = some nv →
        OpIncrBy cfg now st key field incr = IncrRes.ok nv
          ⟨dbSet st.db key
              (HashVal.strMap (smAddOrUpdate sm field (toString nv) none).1),
           st.stats⟩ ∧
        smFind now (smAddOrUpdate sm field (toString nv) none).1 field =
          some (toString nv)))) := by
  refine ⟨?_, ?_, ?_⟩
  · intro old incr h1 h2 h3 h4
    have hCiff : ((incr < 0 ∧ old < 0 ∧ incr < LLONG_MIN - old) ∨
        (incr > 0 ∧ old > 0 ∧ incr > LLONG_MAX - old)) ↔
        ¬ (LLONG_MIN ≤ old + incr ∧ old + incr ≤ LLONG_MAX) := by
      simp only [LLONG_MIN, LLONG_MAX] at *
      omega
    by_cases hc : ((incr < 0 ∧ old < 0 ∧ incr < LLONG_MIN - old) ∨
        (incr > 0 ∧ old > 0 ∧ incr > LLONG_MAX - old))
    · simp only [IncrementValueInt, Option.getD_some, if_pos hc]
      exact ⟨by simp [hc], by simp [hCiff.mp hc], by simp⟩
    · simp only [IncrementValueInt, Option.getD_some, if_neg hc]
      have hr : LLONG_MIN ≤ old + incr ∧ old + incr ≤ LLONG_MAX :=
        not_not.mp (fun hnr => hc (hCiff.mpr hnr))
      exact ⟨by simp [hc], by simp [hr], by simp⟩
  · intro cfg now st key field incr lp s old hfind hsize hlp hparse
    have hsz' : ¬ lpBytes lp ≥ cfg.maxListpackMapBytes := by omega
    constructor
    · intro herr
      simp only [OpIncrBy, hfind]
      rw [if_neg hsz']
      simp only [hlp, hparse, herr]
      have hb : st.stats.listpackBytes - lpBytes lp + lpBytes lp =
          st.stats.listpackBytes := Int.sub_add_cancel _ _
      simp [hb]
    · intro nv hok
      refine ⟨?_, lpFind_LpInsert lp field (toString nv)⟩
      simp only [OpIncrBy, hfind]
      rw [if_neg hsz']
      simp only [hlp, hparse, hok]
  · intro cfg now st key field incr sm s old hfind hsm hparse
    constructor
    · intro herr
      simp only [OpIncrBy, hfind, incrOnStrMap, hsm, hparse, herr]
    · intro nv hok
      refine ⟨?_, smFind_smAddOrUpdate now sm field (toString nv)⟩
      simp only [OpIncrBy, hfind, incrOnStrMap, hsm, hparse, hok]

/-- Witness for C8: incrementing the field "f" holding 5 by `LLONG_MAX` overflows
(leaving the state untouched), while incrementing it by 3 stores "8". -/
theorem hincrby_overflow_witness :
    (IncrementValueInt (some 5) 9223372036854775807 = none ↔
      ¬ (LLONG_MIN ≤ 5 + 9223372036854775807 ∧
         5 + 9223372036854775807 ≤ LLONG_MAX)) ∧
    OpIncrBy ⟨16, 1024, 128⟩ 0 ⟨[("h", HashVal.listpack [("f", "5")])], ⟨1, 30⟩⟩
      "h" "f" 9223372036854775807 =
      IncrRes.outOfRange ⟨[("h", HashVal.listpack [("f", "5")])], ⟨1, 30⟩⟩ ∧
    LpFind (LpInsert [("f", "5")] "f" (toString (8 : Int)) false).1 "f" =
      some (toString (8 : Int)) := by
  refine ⟨?_, ?_, ?_⟩
  · exact (hincrby_overflow.1 5 9223372036854775807 (by decide) (by decide)
      (by decide) (by decide)).2.1
  · exact (hincrby_overflow.2.1 ⟨16, 1024, 128⟩ 0
      ⟨[("h", HashVal.listpack [("f", "5")])], ⟨1, 30⟩⟩ "h" "f" 9223372036854775807
      [("f", "5")] "5" 5 (by decide) (by decide) (by decide) (by decide)).1
      (by decide)
  · exact ((hincrby_overflow.2.1 ⟨16, 1024, 128⟩ 0
      ⟨[("h", HashVal.listpack [("f", "5")])], ⟨1, 30⟩⟩ "h" "f" 3
      [("f", "5")] "5" 5 (by decide) (by decide) (by decide) (by decide)).2 8
      (by decide)).2

theorem edLt_iff (a b : EDouble) :
    edLt a b = true ↔
      (a.key.1 < b.key.1 ∨ (a.key.1 = b.key.1 ∧ a.key.2 < b.key.2)) := by
  simp [edLt]

theorem edLt_false_iff (a b : EDouble) :
    edLt a b = false ↔
      ¬ (a.key.1 < b.key.1 ∨ (a.key.1 = b.key.1 ∧ a.key.2 < b.key.2)) := by
  rw [← edLt_iff]
  cases edLt a b <;> simp

theorem edKey_inj {a b : EDouble} (h : a.key = b.key) : a = b := by
  cases a <;> cases b <;> simp_all [EDouble.key, Prod.ext_iff]

theorem edLt_asymm {a b : EDouble} (h : edLt a b = true) : edLt b a = false := by
  rw [edLt_iff] at h
  rw [edLt_false_iff]
  omega

theorem edLt_trans {a b c : EDouble} (h1 : edLt a b = true) (h2 : edLt b c = true) :
    edLt a c = true := by
  rw [edLt_iff] at h1 h2 ⊢
  omega

theorem not_edLt_trans {a b c : EDouble} (h1 : edLt b a = false)
    (h2 : edLt c b = false) : edLt c a = false := by
  rw [edLt_false_iff] at h1 h2 ⊢
  omega

theorem edLe_of_not_lt {a b : EDouble} (h : edLt b a = false) : edLe a b = true := by
  rw [edLt_false_iff] at h
  by_cases h1 : a.key.1 < b.key.1 ∨ (a.key.1 = b.key.1 ∧ a.key.2 < b.key.2)
  · simp [edLe, (edLt_iff a b).mpr h1]
  · have hk : a.key = b.key := by
      push_neg at h h1
      have e1 : a.key.1 = b.key.1 := by omega
      have e2 : a.key.2 = b.key.2 := by omega
      exact Prod.ext_iff.mpr ⟨e1, e2⟩
    simp [edLe, edKey_inj hk]

theorem zinterLe_total (a b : MemberStr × EDouble) :
    zinterLe a b = true ∨ zinterLe b a = true := by
  simp only [zinterLe, Bool.not_eq_true']
  cases h : edLt b.2 a.2 with
  | false => exact Or.inl rfl
  | true => exact Or.inr (edLt_asymm h)

theorem zinterLe_trans {a b c : MemberStr × EDouble} (h1 : zinterLe a b = true)
    (h2 : zinterLe b c = true) : zinterLe a c = true := by
  simp only [zinterLe, Bool.not_eq_true'] at h1 h2 ⊢
  exact not_edLt_trans h1 h2

theorem zunionLe_total (a b : EDouble × MemberStr) :
    zunionLe a b = true ∨ zunionLe b a = true := by
  simp only [zunionLe, Bool.or_eq_true, Bool.and_eq_true, decide_eq_true_eq]
  cases h : edLt a.1 b.1 with
  | true => exact Or.inl (Or.inl rfl)
  | false =>
      cases h2 : edLt b.1 a.1 with
      | true => exact Or.inr (Or.inl rfl)
      | false =>
          have hk : b.1.key = a.1.key := by
            rw [edLt_false_iff] at h h2
            push_neg at h h2
            have e1 : b.1.key.1 = a.1.key.1 := by omega
            have e2 : b.1.key.2 = a.1.key.2 := by omega
            exact Prod.ext_iff.mpr ⟨e1, e2⟩
          have heq : b.1 = a.1 := edKey_inj hk
          rcases le_total a.2 b.2 with hm | hm
          · exact Or.inl (Or.inr ⟨heq.symm, hm⟩)
          · exact Or.inr (Or.inr ⟨heq, hm⟩)

theorem zunionLe_trans {a b c : EDouble × MemberStr} (h1 : zunionLe a b = true)
    (h2 : zunionLe b c = true) : zunionLe a c = true := by
  simp only [zunionLe, Bool.or_eq_true, Bool.and_eq_true, decide_eq_true_eq]
    at h1 h2 ⊢
  rcases h1 with h1 | ⟨h1s, h1m⟩
  · rcases h2 with h2 | ⟨h2s, h2m⟩
    · exact Or.inl (edLt_trans h1 h2)
    · exact Or.inl (h2s ▸ h1)
  · rcases h2 with h2 | ⟨h2s, h2m⟩
    · exact Or.inl (h1s ▸ h2)
    · exact Or.inr ⟨h1s.trans h2s, le_trans h1m h2m⟩

/-- Claim C7: for every collection of input maps, the reply of `ZINTER` (without
STORE) lists the members sorted by ascending score, and the reply of `ZUNION`
(without STORE) lists the `(score, member)` pairs sorted lexicographically — by
ascending score with ties broken by the member bytes (the pair order `zunionLe`). -/
theorem zinter_zunion_sorted :
    (∀ (maps : List ScoredMap) (agg : AggType),
      List.Sorted (fun a b => edLe a.2 b.2 = true) (ZInterReply maps agg)) ∧
    (∀ (maps : List ScoredMap) (agg : AggType),
      List.Sorted (fun a b => zunionLe a b = true) (ZUnionReply maps agg)) := by
  constructor
  · intro maps agg
    haveI : IsTotal (MemberStr × EDouble) (fun a b => zinterLe a b = true) :=
      ⟨zinterLe_total⟩
    haveI : IsTrans (MemberStr × EDouble) (fun a b => zinterLe a b = true) :=
      ⟨fun _ _ _ => zinterLe_trans⟩
    have hs : List.Sorted (fun a b => zinterLe a b = true)
        (List.insertionSort (fun a b => zinterLe a b) (IntersectResults maps agg)) :=
      List.sorted_insertionSort _ _
    exact hs.imp (fun {a b} h => by
      simpa [zinterLe, Bool.not_eq_true'] using edLe_of_not_lt (by
        simpa [zinterLe, Bool.not_eq_true'] using h))
  · intro maps agg
    haveI : IsTotal (EDouble × MemberStr) (fun a b => zunionLe a b = true) :=
      ⟨zunionLe_total⟩
    haveI : IsTrans (EDouble × MemberStr) (fun a b => zunionLe a b = true) :=
      ⟨fun _ _ _ => zunionLe_trans⟩
    exact List.sorted_insertionSort _ _

/-! ### Generic facts about range scans over sorted lists -/

theorem takeWhile_eq_filter_mono {α : Type} (q : α → Bool) (lt : α → α → Prop)
    (hq : ∀ a b, lt a b → q b = true → q a = true) :
    ∀ l : List α, l.Pairwise lt → l.takeWhile q = l.filter q := by
  intro l
  induction l with
  | nil => intro _; rfl
  | cons x xs ih =>
      intro hp
      have hrel := (List.pairwise_cons.mp hp).1
      have htl := (List.pairwise_cons.mp hp).2
      cases hx : q x with
      | true => simp [List.takeWhile_cons, List.filter_cons, hx, ih htl]
      | false =>
          have hall : ∀ y ∈ xs, ¬ q y = true := by
            intro y hy hqy
            have := hq x y (hrel y hy) hqy
            simp [hx] at this
          simp [List.takeWhile_cons, List.filter_cons, hx,
            List.filter_eq_nil_iff.mpr hall]

theorem dropWhile_takeWhile_filter {α : Type} (p q : α → Bool) (lt : α → α → Prop)
    (hp : ∀ a b, lt a b → p a = true → p b = true)
    (hq : ∀ a b, lt a b → q b = true → q a = true) :
    ∀ l : List α, l.Pairwise lt →
      (l.dropWhile (fun x => !p x)).takeWhile q = l.filter (fun x => p x && q x) := by
  intro l
  induction l with
  | nil => intro _; rfl
  | cons x xs ih =>
      intro hpair
      have hrel := (List.pairwise_cons.mp hpair).1
      have htl := (List.pairwise_cons.mp hpair).2
      cases hx : p x with
      | false =>
          simp only [List.dropWhile_cons, hx, Bool.not_false, if_true,
            List.filter_cons, Bool.false_and]
          exact ih htl
      | true =>
          have hallp : ∀ y ∈ x :: xs, p y = true := by
            intro y hy
            rcases List.mem_cons.mp hy with h | h
            · rw [h]; exact hx
            · exact hp x y (hrel y h) hx
          have hfc : (x :: xs).filter (fun e => p e && q e) =
              (x :: xs).filter q := by
            refine List.filter_congr ?_
            intro a ha
            rw [hallp a ha, Bool.true_and]
          simp only [List.dropWhile_cons, hx, Bool.not_true, Bool.false_eq_true,
            if_false]
          rw [hfc]
          exact takeWhile_eq_filter_mono q lt hq (x :: xs) hpair

/-! ### The lex and score range scans select the same interval, reversed -/

theorem gteMin_mono {r : ZLexRange} {a b : MemberStr} (h : a < b)
    (ha : zslLexValueGteMin a r = true) : zslLexValueGteMin b r = true := by
  cases hm : r.min with
  | minusInf => simp [zslLexValueGteMin, hm]
  | plusInf => simp [zslLexValueGteMin, hm] at ha
  | closed s =>
      simp only [zslLexValueGteMin, hm, decide_eq_true_eq] at ha ⊢
      exact le_trans ha (le_of_lt h)
  | opn s =>
      simp only [zslLexValueGteMin, hm, decide_eq_true_eq] at ha ⊢
      exact lt_trans ha h

theorem lteMax_anti {r : ZLexRange} {a b : MemberStr} (h : a < b)
    (hb : zslLexValueLteMax b r = true) : zslLexValueLteMax a r = true := by
  cases hm : r.max with
  | minusInf => simp [zslLexValueLteMax, hm] at hb
  | plusInf => simp [zslLexValueLteMax, hm]
  | closed s =>
      simp only [zslLexValueLteMax, hm, decide_eq_true_eq] at hb ⊢
      exact le_trans (le_of_lt h) hb
  | opn s =>
      simp only [zslLexValueLteMax, hm, decide_eq_true_eq] at hb ⊢
      exact lt_trans h hb

theorem extractLex_fwd_filter (z : List (EDouble × MemberStr)) (r : ZLexRange)
    (n : Nat) (hz : z.Pairwise (fun a b => a.2 < b.2)) (hn : z.length ≤ n) :
    ExtractLexListPack z r false 0 n =
      (z.filter (fun e => zslLexValueGteMin e.2 r && zslLexValueLteMax e.2 r)).map
        Prod.snd := by
  have hcore := dropWhile_takeWhile_filter (fun e => zslLexValueGteMin e.2 r)
    (fun e => zslLexValueLteMax e.2 r) (fun a b => a.2 < b.2)
    (fun a b hab ha => gteMin_mono hab ha)
    (fun a b hab hb => lteMax_anti hab hb) z hz
  have hlen : ((z.dropWhile (fun e => !zslLexValueGteMin e.2 r)).takeWhile
      (fun e => zslLexValueLteMax e.2 r)).length ≤ n :=
    le_trans (le_trans (List.takeWhile_sublist _).length_le
      (List.dropWhile_sublist _).length_le) hn
  simp only [ExtractLexListPack, Bool.false_eq_true, if_false, List.drop_zero]
  rw [List.take_of_length_le hlen, hcore]

theorem extractLex_rev_filter (z : List (EDouble × MemberStr)) (r : ZLexRange)
    (n : Nat) (hz : z.Pairwise (fun a b => a.2 < b.2)) (hn : z.length ≤ n) :
    ExtractLexListPack z r true 0 n =
      ((z.filter (fun e => zslLexValueGteMin e.2 r &&
          zslLexValueLteMax e.2 r)).map Prod.snd).reverse := by
  have hzr : z.reverse.Pairwise (fun a b : EDouble × MemberStr => b.2 < a.2) := by
    exact List.pairwise_reverse.mpr hz
  have hcore := dropWhile_takeWhile_filter (fun e => zslLexValueLteMax e.2 r)
    (fun e => zslLexValueGteMin e.2 r)
    (fun a b : EDouble × MemberStr => b.2 < a.2)
    (fun a b hab ha => lteMax_anti hab ha)
    (fun a b hab hb => gteMin_mono hab hb) z.reverse hzr
  have hlen : ((z.reverse.dropWhile (fun e => !zslLexValueLteMax e.2 r)).takeWhile
      (fun e => zslLexValueGteMin e.2 r)).length ≤ n := by
    refine le_trans (le_trans (List.takeWhile_sublist _).length_le
      (le_trans (List.dropWhile_sublist _).length_le ?_)) hn
    rw [List.length_reverse]
  simp only [ExtractLexListPack, if_true, List.drop_zero]
  rw [List.take_of_length_le hlen, hcore]
  rw [List.filter_reverse, List.map_reverse]
  congr 1
  refine congrArg (List.map Prod.snd) (List.filter_congr ?_)
  intro a _
  exact Bool.and_comm _ _

theorem scoreGteMin_mono {r : ZScoreRange} {a b : EDouble} (h : edLt b a = false)
    (ha : zslValueGteMin a r = true) : zslValueGteMin b r = true := by
  cases hex : r.minex with
  | true =>
      simp only [zslValueGteMin, hex, if_true] at ha ⊢
      rw [edLt_iff] at ha ⊢
      rw [edLt_false_iff] at h
      omega
  | false =>
      simp only [zslValueGteMin, hex, Bool.false_eq_true, if_false,
        Bool.not_eq_true'] at ha ⊢
      rw [edLt_false_iff] at ha h ⊢
      omega

theorem scoreLteMax_anti {r : ZScoreRange} {a b : EDouble} (h : edLt b a = false)
    (hb : zslValueLteMax b r = true) : zslValueLteMax a r = true := by
  cases hex : r.maxex with
  | true =>
      simp only [zslValueLteMax, hex, if_true] at hb ⊢
      rw [edLt_iff] at hb ⊢
      rw [edLt_false_iff] at h
      omega
  | false =>
      simp only [zslValueLteMax, hex, Bool.false_eq_true, if_false,
        Bool.not_eq_true'] at hb ⊢
      rw [edLt_false_iff] at hb h ⊢
      omega

theorem extractScore_fwd_filter (z : List (EDouble × MemberStr)) (r : ZScoreRange)
    (n : Nat) (hz : z.Pairwise (fun a b => edLt b.1 a.1 = false))
    (hn : z.length ≤ n) :
    ExtractScoreListPack z r false 0 n =
      z.filter (fun e => zslValueGteMin e.1 r && zslValueLteMax e.1 r) := by
  have hcore := dropWhile_takeWhile_filter (fun e => zslValueGteMin e.1 r)
    (fun e => zslValueLteMax e.1 r)
    (fun a b : EDouble × MemberStr => edLt b.1 a.1 = false)
    (fun a b hab ha => scoreGteMin_mono hab ha)
    (fun a b hab hb => scoreLteMax_anti hab hb) z hz
  have hlen : ((z.dropWhile (fun e => !zslValueGteMin e.1 r)).takeWhile
      (fun e => zslValueLteMax e.1 r)).length ≤ n :=
    le_trans (le_trans (List.takeWhile_sublist _).length_le
      (List.dropWhile_sublist _).length_le) hn
  simp only [ExtractScoreListPack, Bool.false_eq_true, if_false, List.drop_zero]
  rw [List.take_of_length_le hlen, hcore]

theorem extractScore_rev_filter (z : List (EDouble × MemberStr)) (r : ZScoreRange)
    (n : Nat) (hz : z.Pairwise (fun a b => edLt b.1 a.1 = false))
    (hn : z.length ≤ n) :
    ExtractScoreListPack z r true 0 n =
      (z.filter (fun e => zslValueGteMin e.1 r && zslValueLteMax e.1 r)).reverse := by
  have hzr : z.reverse.Pairwise
      (fun a b : EDouble × MemberStr => edLt a.1 b.1 = false) := by
    exact List.pairwise_reverse.mpr hz
  have hcore := dropWhile_takeWhile_filter (fun e => zslValueLteMax e.1 r)
    (fun e => zslValueGteMin e.1 r)
    (fun a b : EDouble × MemberStr => edLt a.1 b.1 = false)
    (fun a b hab ha => scoreLteMax_anti hab ha)
    (fun a b hab hb => scoreGteMin_mono hab hb) z.reverse hzr
  have hlen : ((z.reverse.dropWhile (fun e => !zslValueLteMax e.1 r)).takeWhile
      (fun e => zslValueGteMin e.1 r)).length ≤ n := by
    refine le_trans (le_trans (List.takeWhile_sublist _).length_le
      (le_trans (List.dropWhile_sublist _).length_le ?_)) hn
    rw [List.length_reverse]
  simp only [ExtractScoreListPack, if_true, List.drop_zero]
  rw [List.take_of_length_le hlen, hcore]
  rw [List.filter_reverse]
  congr 1
  refine List.filter_congr ?_
  intro a _
  exact Bool.and_comm _ _

/-- Claim C6: after `ZADD z 0 a 0 b 0 c 0 d`, `ZRANGEBYLEX z [a (c` returns exactly
["a", "b"] in that order and `ZREVRANGEBYLEX z (c [a` returns exactly ["b", "a"]
(conjunct 1); every reversed lex or score range swaps its endpoints before
comparison (`GetLexRange` / `GetZrangeSpec`, conjuncts 2 and 3); and on entries
sorted by member (resp. by score), the reversed scan selects exactly the same
interval as the forward scan, in reverse order (conjuncts 4 and 5). -/
theorem zrangebylex_reverse :
    (let cfg : HConfig := ⟨16, 1024, 128⟩
     let db := (ZAddCmd cfg [] "z" ["0", "a", "0", "b", "0", "c", "0", "d"]).1
     ZRangeByLexCmd db "z" "[a" "(c" false = some ["a".data, "b".data] ∧
     ZRangeByLexCmd db "z" "(c" "[a" true = some ["b".data, "a".data]) ∧
    (∀ li : LexBound × LexBound,
      GetLexRange true li = GetLexRange false (li.2, li.1)) ∧
    (∀ si : (EDouble × Bool) × (EDouble × Bool),
      GetZrangeSpec true si = GetZrangeSpec false (si.2, si.1)) ∧
    (∀ (z : List (EDouble × MemberStr)) (r : ZLexRange) (n : Nat),
      z.Pairwise (fun a b => a.2 < b.2) → z.length ≤ n →
      ExtractLexListPack z r true 0 n =
        (ExtractLexListPack z r false 0 n).reverse) ∧
    (∀ (z : List (EDouble × MemberStr)) (r : ZScoreRange) (n : Nat),
      z.Pairwise (fun a b => edLt b.1 a.1 = false) → z.length ≤ n →
      ExtractScoreListPack z r true 0 n =
        (ExtractScoreListPack z r false 0 n).reverse) := by
  refine ⟨by decide, fun li => rfl, fun si => rfl, ?_, ?_⟩
  · intro z r n hz hn
    rw [extractLex_rev_filter z r n hz hn, extractLex_fwd_filter z r n hz hn]
  · intro z r n hz hn
    rw [extractScore_rev_filter z r n hz hn, extractScore_fwd_filter z r n hz hn]

/-- Witness for C6: the reversed scans applied to the concrete four-member set of
the scenario, for the lex range ([a, (c) and the closed score range [0, 0]. -/
theorem zrangebylex_reverse_witness :
    (ExtractLexListPack
        [(EDouble.fin 0, "a".data), (EDouble.fin 0, "b".data),
         (EDouble.fin 0, "c".data), (EDouble.fin 0, "d".data)]
        ⟨LexBound.closed "a".data, LexBound.opn "c".data⟩ true 0 4 =
      (ExtractLexListPack
        [(EDouble.fin 0, "a".data), (EDouble.fin 0, "b".data),
         (EDouble.fin 0, "c".data), (EDouble.fin 0, "d".data)]
        ⟨LexBound.closed "a".data, LexBound.opn "c".data⟩ false 0 4).reverse) ∧
    (ExtractScoreListPack
        [(EDouble.fin 0, "a".data), (EDouble.fin 0, "b".data)]
        ⟨EDouble.fin 0, EDouble.fin 0, false, false⟩ true 0 2 =
      (ExtractScoreListPack
        [(EDouble.fin 0, "a".data), (EDouble.fin 0, "b".data)]
        ⟨EDouble.fin 0, EDouble.fin 0, false, false⟩ false 0 2).reverse) :=
  ⟨zrangebylex_reverse.2.2.2.1
      [(EDouble.fin 0, "a".data), (EDouble.fin 0, "b".data),
       (EDouble.fin 0, "c".data), (EDouble.fin 0, "d".data)]
      ⟨LexBound.closed "a".data, LexBound.opn "c".data⟩ 4 (by decide) (by decide),
   zrangebylex_reverse.2.2.2.2
      [(EDouble.fin 0, "a".data), (EDouble.fin 0, "b".data)]
      ⟨EDouble.fin 0, EDouble.fin 0, false, false⟩ 2 (by decide) (by decide)⟩

end Dfly
